import Mathlib

/-!
# Verification of the shift-assignment engine of `src/app.js`

A shallow embedding of the scheduling core of the hospital staff scheduler
(`runScheduler` and its helpers, `src/app.js` lines 1208-1507), together with
proofs about the embedded definitions.

Modelling conventions:

* JavaScript numbers that the engine uses as integers (day indices, counters,
  coverage) are embedded as `Nat`/`Int`.
* The seeded generator `seededRandom` (app.js:1271) computes
  `frac(Math.sin(seed) * 10000)`, a transcendental floating-point function.
  It is embedded as an abstract parameter `rng : Q → Q`: a pure function of
  the running seed, advanced by one per draw, exactly as the source consumes
  it via `seededRandom(seed++)`.  The fractional constants `0.5`, `0.8`,
  `0.3`, `0.15` are embedded as the rationals `1/2`, `4/5`, `3/10`, `3/20`.
* JavaScript `Date` arithmetic enters the engine only through
  `getDaysInPeriod` (number of days of the period, embedded below from the
  ECMA-262 `Date` day arithmetic) and through `formatDateStr(getDateForDay d)`
  and `getDateForDay(d).getDay()`.  The latter two are collaborator functions
  of the engine and are passed to the embedded scheduler as parameters
  `dateStr : Nat → String` and `isWeekend : Nat → Bool`.
-/

namespace StaffScheduler

/-! ## Calendar resolver: ECMAScript `Date` day arithmetic

`getDaysInPeriod` (app.js:1228-1234) returns
`new Date(year, month + 1, 0).getDate()` in month mode and `duration`
otherwise.  We embed the `Date` constructor and the `getDate` getter at day
granularity: the constructor interprets its arguments in local time and
`getDate` reads local time back, so the time-zone offset cancels and only the
day number matters.
-/

/-- The Gregorian leap-year rule, as in ECMA-262 `DaysInYear`:
divisible by 4, except centuries that are not divisible by 400. -/
def isLeap (y : Int) : Bool :=
  y % 4 == 0 && (y % 100 != 0 || y % 400 == 0)

/-- Number of days of the 0-indexed month `m` (0 = January) given the
leapness of the year: 31/28 or 29/31/30/31/30/31/31/30/31/30/31. -/
def monthLen (leap : Bool) (m : Nat) : Int :=
  match m with
  | 0 => 31
  | 1 => if leap then 29 else 28
  | 2 => 31
  | 3 => 30
  | 4 => 31
  | 5 => 30
  | 6 => 31
  | 7 => 31
  | 8 => 30
  | 9 => 31
  | 10 => 30
  | _ => 31

/-- Day-within-year on which the 0-indexed month `m` starts (the cumulative
month lengths used by ECMA-262 `DateFromTime`/`MonthFromTime`). -/
def monthStart (leap : Bool) (m : Nat) : Int :=
  match m with
  | 0 => 0
  | 1 => 31
  | 2 => if leap then 60 else 59
  | 3 => if leap then 91 else 90
  | 4 => if leap then 121 else 120
  | 5 => if leap then 152 else 151
  | 6 => if leap then 182 else 181
  | 7 => if leap then 213 else 212
  | 8 => if leap then 244 else 243
  | 9 => if leap then 274 else 273
  | 10 => if leap then 305 else 304
  | _ => if leap then 335 else 334

/-- ECMA-262 `DayFromYear`: the day number (days since 1970-01-01) of
January 1 of year `y`. -/
def dayFromYear (y : Int) : Int :=
  365 * (y - 1970) + (y - 1969) / 4 - (y - 1901) / 100 + (y - 1601) / 400

/-- ECMA-262 `MakeDay` at day granularity: the day number of the calendar
day `date` of month `month` (0-indexed, normalized into the year) of year
`year`.  `MakeDay` characterizes it as the unique `t` whose year is
`ym = year + ⌊month / 12⌋`, whose month is `mn = month mod 12` and whose
date is 1, plus `date - 1` days. -/
def makeDay (year month date : Int) : Int :=
  let ym := year + month / 12
  let mn := (month % 12).toNat
  dayFromYear ym + monthStart (isLeap ym) mn + date - 1

/-- Date-of-month from a day-of-era (the position `doe` inside a 400-year
era, `0 ≤ doe < 146097`): year-of-era, day-of-year and month slot of the
standard civil-calendar conversion. -/
def dateOfDayFromDoe (doe : Int) : Int :=
  let yoe := (doe - doe / 1460 + doe / 36524 - doe / 146096) / 365
  let doy := doe - (365 * yoe + yoe / 4 - yoe / 100)
  let mp := (5 * doy + 2) / 153
  doy - (153 * mp + 2) / 5 + 1

/-- ECMA-262 `DateFromTime` at day granularity: the date-of-month (1-31) of
the day numbered `z` (days since 1970-01-01), computed with the standard
civil-calendar conversion over 400-year eras. -/
def dateOfDayNumber (z : Int) : Int :=
  let u := z + 719468
  let era := u / 146097
  dateOfDayFromDoe (u - era * 146097)

/-- ECMA-262 `MakeFullYear`: an integer year argument between 0 and 99 is
interpreted as 1900 + year by the `Date` constructor. -/
def makeFullYear (y : Int) : Int :=
  if 0 ≤ y ∧ y ≤ 99 then 1900 + y else y

/-- `new Date(year, month + 1, 0).getDate()` before the two-digit-year
adjustment and before `TimeClip`: the date-of-month computation for an
already-normalized year whose constructed day number is in range.  The
faithful resolver `jsDaysInMonthClipped` guards this computation with
`TimeClip` and applies `MakeFullYear`. -/
def jsDaysInMonthRaw (year month : Int) : Int :=
  dateOfDayNumber (makeDay year (month + 1) 0)

/-- The pre-`TimeClip` value of the month branch of `getDaysInPeriod`
(app.js:1230): `MakeFullYear` followed by the date-of-month computation.
On valid dates it agrees with the faithful `jsDaysInMonthClipped`. -/
def jsDaysInMonth (year month : Int) : Int :=
  jsDaysInMonthRaw (makeFullYear year) month

/-- ECMA-262 `TimeClip` at day granularity: a time value is valid exactly
when its absolute value is at most `8.64e15` milliseconds, i.e. when the
day number lies within `±100,000,000` days of the epoch.  Beyond that the
`Date` is invalid and `getDate()` returns `NaN`.  (The local-time offset
`UTC` applies is below day granularity and is ignored here, consistently
with the day-granularity embedding.) -/
def timeClipOkDay (day : Int) : Bool :=
  -100000000 ≤ day && day ≤ 100000000

/-- `new Date(AppState.year, AppState.month + 1, 0).getDate()` with the
full ECMA-262 constructor pipeline — `MakeFullYear`, `MakeDay`, `TimeClip`,
`DateFromTime` — at day granularity: `none` models the `NaN` that
`getDate()` returns on an invalid (out-of-range) `Date`. -/
def jsDaysInMonthClipped (year month : Int) : Option Int :=
  if timeClipOkDay (makeDay (makeFullYear year) (month + 1) 0) then
    some (jsDaysInMonth year month)
  else none

/-- Modelled from the spec: the actual number of calendar days in the
0-indexed `month` of `year`, "including 29 for February in leap years and
28 otherwise" (spec 4.1). -/
def actualDaysInMonth (year : Int) (month : Nat) : Int :=
  monthLen (isLeap year) month

example : jsDaysInMonthRaw 2025 4 = 31 := by decide
example : jsDaysInMonthRaw 2024 1 = 29 := by decide
example : jsDaysInMonthRaw 2025 1 = 28 := by decide
example : jsDaysInMonthRaw 1900 1 = 28 := by decide
example : jsDaysInMonthRaw 2000 1 = 29 := by decide
example : jsDaysInMonthRaw 2025 11 = 31 := by decide
example : jsDaysInMonthRaw 2025 0 = 31 := by decide
example : jsDaysInMonth 0 1 = 28 := by decide
example : jsDaysInMonth 120 1 = 29 := by decide

/-! ## Data model

Mirrors the fields of `AppState` (app.js:36-57) and the objects the engine
reads.  Fields the engine never touches at all (colors, clock times,
descriptions) are omitted; fields named `type` in JavaScript are embedded as
`kind`/`stype` because `type` is a Lean keyword.
-/

/-- A grid cell: `null`, a shift code, or an absence marker string. -/
abbrev Cell := Option String

/-- Exact rational numbers as unnormalized `num / den` pairs with a
positive denominator by construction.  The engine's fractional constants
(0.5, 0.8, 0.3, 0.15) and the draws of the seeded generator live here; the
representation avoids normalization so that every arithmetic step is a
plain `Int`/`Nat` computation.  (JavaScript computes these in binary
floating point; over the exact constants used by the engine the comparisons
modelled here are the intended ones.) -/
structure Q where
  num : Int
  den : Nat
  deriving DecidableEq, Repr

instance : OfNat Q n := ⟨⟨(n : Int), 1⟩⟩

instance : NatCast Q := ⟨fun n => ⟨(n : Int), 1⟩⟩

instance : Add Q :=
  ⟨fun a b => ⟨a.num * (b.den : Int) + b.num * (a.den : Int), a.den * b.den⟩⟩

instance : Mul Q := ⟨fun a b => ⟨a.num * b.num, a.den * b.den⟩⟩

instance : LT Q := ⟨fun a b => a.num * (b.den : Int) < b.num * (a.den : Int)⟩

instance (a b : Q) : Decidable (a < b) :=
  inferInstanceAs (Decidable (a.num * (b.den : Int) < b.num * (a.den : Int)))

/-- One half: the scale of each noise draw (`* 0.5`). -/
def qHalf : Q := ⟨1, 2⟩

/-- 0.8: the backup-pass workload gate (`targetShifts * 0.8`). -/
def qFourFifths : Q := ⟨4, 5⟩

/-- 0.3: the backup-pass draw threshold. -/
def qThreeTenths : Q := ⟨3, 10⟩

/-- 0.15: the admin-pass draw threshold. -/
def qThreeTwentieths : Q := ⟨3, 20⟩

/-- An unavailability window (source field names: `type`, `startDate`,
`endDate`).  The UI stores unset dates as the empty string (app.js:955). -/
structure UnavailWindow where
  kind : String
  startDate : String
  endDate : String
  deriving DecidableEq, Repr

structure Employee where
  name : String
  unavailability : List UnavailWindow
  deriving DecidableEq, Repr

structure Group where
  name : String
  employees : List Employee
  deriving DecidableEq, Repr

/-- A shift definition (source fields `code`, `type`, `coverage`); `coverage`
is `none` when the property is absent (`shift.coverage !== undefined`,
app.js:1374). -/
structure Shift where
  code : String
  stype : String
  coverage : Option Nat
  deriving DecidableEq, Repr

structure Constraints where
  minRestHours : Nat
  maxHoursWeek : Nat
  maxConsecutiveDays : Nat
  targetShiftsPerPerson : Nat
  deriving DecidableEq, Repr

/-- An entry of the static `ROTATION_PATTERNS` catalog (app.js:68-280); the
display-only `name`/`desc` strings are omitted. -/
structure RotationPattern where
  id : String
  pattern : Option (List Nat)
  deriving DecidableEq, Repr

def healthcarePatterns : List RotationPattern :=
  [ { id := "custom", pattern := none },
    { id := "5on2off", pattern := some [1, 1, 1, 1, 1, 0, 0] },
    { id := "4on4off", pattern := some [1, 1, 1, 1, 0, 0, 0, 0] },
    { id := "3on4off", pattern := some [1, 1, 1, 0, 0, 0, 0] },
    { id := "7on7off", pattern := some [1, 1, 1, 1, 1, 1, 1, 0, 0, 0, 0, 0, 0, 0] },
    { id := "dupont", pattern := some [1, 1, 1, 1, 0, 0, 0, 1, 1, 1, 0, 1, 1, 1, 0, 0, 0, 1, 1, 1, 1, 0, 0, 0, 0, 0, 0, 0] },
    { id := "panama", pattern := some [1, 1, 0, 0, 1, 1, 1, 0, 0, 1, 1, 0, 0, 0] } ]

def manufacturingPatterns : List RotationPattern :=
  [ { id := "custom", pattern := none },
    { id := "5on2off", pattern := some [1, 1, 1, 1, 1, 0, 0] },
    { id := "4on3off", pattern := some [1, 1, 1, 1, 0, 0, 0] },
    { id := "4on4off", pattern := some [1, 1, 1, 1, 0, 0, 0, 0] },
    { id := "continental", pattern := some [1, 1, 1, 1, 1, 1, 0, 0, 0, 0] },
    { id := "panama", pattern := some [1, 1, 0, 0, 1, 1, 1, 0, 0, 1, 1, 0, 0, 0] },
    { id := "6on1off", pattern := some [1, 1, 1, 1, 1, 1, 0] } ]

def publicSafetyPatterns : List RotationPattern :=
  [ { id := "custom", pattern := none },
    { id := "24on48off", pattern := some [1, 0, 0] },
    { id := "24on72off", pattern := some [1, 0, 0, 0] },
    { id := "4on4off", pattern := some [1, 1, 1, 1, 0, 0, 0, 0] },
    { id := "pitman", pattern := some [1, 1, 0, 0, 1, 1, 1, 0, 0, 1, 1, 0, 0, 0] },
    { id := "5on2off5on3off", pattern := some [1, 1, 1, 1, 1, 0, 0, 1, 1, 1, 1, 1, 0, 0, 0] },
    { id := "california", pattern := some [1, 1, 1, 0, 0, 0, 0] } ]

def retailPatterns : List RotationPattern :=
  [ { id := "custom", pattern := none },
    { id := "5on2off", pattern := some [1, 1, 1, 1, 1, 0, 0] },
    { id := "4on2off", pattern := some [1, 1, 1, 1, 0, 0] },
    { id := "4on3off", pattern := some [1, 1, 1, 1, 0, 0, 0] },
    { id := "6on1off", pattern := some [1, 1, 1, 1, 1, 1, 0] },
    { id := "split", pattern := some [1, 1, 1, 0, 1, 1, 1, 0, 0] } ]

def otherPatterns : List RotationPattern :=
  [ { id := "custom", pattern := none },
    { id := "5on2off", pattern := some [1, 1, 1, 1, 1, 0, 0] },
    { id := "4on3off", pattern := some [1, 1, 1, 1, 0, 0, 0] },
    { id := "4on4off", pattern := some [1, 1, 1, 1, 0, 0, 0, 0] },
    { id := "6on2off", pattern := some [1, 1, 1, 1, 1, 1, 0, 0] } ]

/-- The `ROTATION_PATTERNS` object as a keyed lookup. -/
def rotationPatternsFor (industry : String) : Option (List RotationPattern) :=
  if industry == "healthcare" then some healthcarePatterns
  else if industry == "manufacturing" then some manufacturingPatterns
  else if industry == "public_safety" then some publicSafetyPatterns
  else if industry == "retail" then some retailPatterns
  else if industry == "other" then some otherPatterns
  else none

/-- The mutable application state (app.js:36-57).  `schedule`, `shiftCounts`
and `warnings` are the output slots the engine overwrites; they are carried
so that independence of the result from them can be stated.  `randomSeed`
is rational because `regenerateSchedule` (app.js:1266) can store a
fractional seed. -/
structure AppState where
  industry : String
  calendarStyle : String
  departmentName : String
  month : Int
  year : Int
  startDate : Option String
  duration : Nat
  coveragePreset : String
  rotationPattern : String
  shifts : List Shift
  groups : List Group
  constraints : Constraints
  schedule : Option (Nat → Nat → Cell)
  shiftCounts : Option ((Nat → Nat) × (Nat → Nat))
  warnings : List String
  randomSeed : Q

/-- `getSelectedRotationPattern` (app.js:580-583):
`(ROTATION_PATTERNS[AppState.industry] || ROTATION_PATTERNS.other)
  .find(p => p.id === AppState.rotationPattern)`. -/
def getSelectedRotationPattern (s : AppState) : Option RotationPattern :=
  ((rotationPatternsFor s.industry).getD otherPatterns).find?
    (fun p => p.id == s.rotationPattern)

/-- `getCoverageDefault` (app.js:1208-1214). -/
def getCoverageDefault (preset shiftCode : String) : Nat :=
  if preset == "24_7" then 1
  else if preset == "8x5" then (if shiftCode == "D" then 1 else 0)
  else if preset == "12x7" then (if shiftCode == "D" || shiftCode == "N" then 1 else 0)
  else 1

/-- `getDaysInPeriod` (app.js:1228-1234) as the engine embedding uses it:
the `Nat` day count of a run that proceeds.  In month mode the JavaScript
value is `NaN` when the constructed `Date` is invalid (out of the
`TimeClip` range), and `runScheduler` then throws at `new Array(numDays)`
(app.js:1299); `getDaysInPeriodChecked` makes that failure explicit and
agrees with this version whenever it is `some`
(`getDaysInPeriodChecked_sound`). -/
def getDaysInPeriod (s : AppState) : Nat :=
  if s.calendarStyle == "monthly" then (jsDaysInMonth s.year s.month).toNat
  else s.duration

/-- `getDaysInPeriod` (app.js:1228-1234) with `Date` validity made
explicit: in month mode `none` models the `NaN` day count produced by an
invalid `Date`. -/
def getDaysInPeriodChecked (s : AppState) : Option Nat :=
  if s.calendarStyle == "monthly" then
    (jsDaysInMonthClipped s.year s.month).map Int.toNat
  else some s.duration

/-! ## The scheduler (`runScheduler`, app.js:1276-1507)

The run is embedded as pure state-passing over `SchedState`.  The two
collaborator functions built on JavaScript `Date` objects —
`d ↦ formatDateStr(getDateForDay(d))` and
`d ↦ (getDateForDay(d).getDay() === 0 || === 6)` — are taken as parameters
`dateStr` and `isWeekend` of the run.
-/

/-- A flattened roster entry (app.js:1281-1292).  `idx` is the position in
`allEmployees`; it stands in for the JavaScript key string
`"${groupIndex}-${empIndex}"`, which is in bijection with the position. -/
structure FlatEmp where
  name : String
  unavailability : List UnavailWindow
  groupIndex : Nat
  groupName : String
  empIndex : Nat
  idx : Nat
  deriving DecidableEq, Repr

/-- Assign consecutive `idx` values starting at `i`. -/
def reindexFrom : Nat → List FlatEmp → List FlatEmp
  | _, [] => []
  | i, e :: es => { e with idx := i } :: reindexFrom (i + 1) es

/-- The flattened `allEmployees` list (app.js:1281-1292), in group order
then employee order. -/
def flattenEmployees (groups : List Group) : List FlatEmp :=
  reindexFrom 0
    ((groups.enum.map (fun gp =>
      gp.2.employees.enum.map (fun ep =>
        ({ name := ep.2.name, unavailability := ep.2.unavailability,
           groupIndex := gp.1, groupName := gp.2.name, empIndex := ep.1,
           idx := 0 } : FlatEmp)))).flatten)

/-- The running mutable state of one generation run: the grid, the fairness
counters `shiftCounts[id].total` / `.night`, the running
`consecutiveDays` counters, the seed and the warning list. -/
structure SchedState where
  schedule : Nat → Nat → Cell
  total : Nat → Nat
  night : Nat → Nat
  consecutive : Nat → Nat
  seed : Q
  warnings : List String

/-- Write one grid cell (`schedule[emp.id][d] = v`). -/
def setCell (sch : Nat → Nat → Cell) (i d : Nat) (v : Cell) : Nat → Nat → Cell :=
  fun i' d' => if i' = i && d' = d then v else sch i' d'

/-- Increment a counter map at one key. -/
def bumpAt (f : Nat → Nat) (i : Nat) : Nat → Nat :=
  fun j => if j = i then f j + 1 else f j

/-- Strict lexicographic comparison of strings by code point, the order
JavaScript's `<`/`>` use on strings (identical to code-unit order for the
ASCII date strings compared here). -/
def strLtList : List Char → List Char → Bool
  | [], [] => false
  | [], _ :: _ => true
  | _ :: _, [] => false
  | a :: as, b :: bs =>
    if a.toNat < b.toNat then true
    else if b.toNat < a.toNat then false
    else strLtList as bs

/-- JavaScript `a <= b` on strings. -/
def strLe (a b : String) : Bool :=
  !strLtList b.data a.data

/-- Pre-fill one unavailability window into employee `i`'s row
(app.js:1308-1319): skipped when `startDate` is falsy (missing / empty);
`endDate` falls back to `startDate` when falsy; a day is covered when its
`YYYY-MM-DD` string lies between the two date strings
(`dateStr >= startStr && dateStr <= endStr`). -/
def applyWindow (dateStr : Nat → String) (numDays : Nat) (i : Nat)
    (sch : Nat → Nat → Cell) (u : UnavailWindow) : Nat → Nat → Cell :=
  if u.startDate = "" then sch
  else
    let endStr := if u.endDate = "" then u.startDate else u.endDate
    (List.range numDays).foldl
      (fun sch d =>
        if strLe u.startDate (dateStr d) && strLe (dateStr d) endStr then
          setCell sch i d (some u.kind)
        else sch)
      sch

/-- Pre-fill all windows of one employee, in list order (last write wins). -/
def prefillEmp (dateStr : Nat → String) (numDays : Nat)
    (sch : Nat → Nat → Cell) (e : FlatEmp) : Nat → Nat → Cell :=
  e.unavailability.foldl (applyWindow dateStr numDays e.idx) sch

/-- The grid after initialization to `null` and unavailability pre-fill
(app.js:1299-1322), before any assignment pass. -/
def prefillSchedule (dateStr : Nat → String) (numDays : Nat)
    (emps : List FlatEmp) : Nat → Nat → Cell :=
  emps.foldl (prefillEmp dateStr numDays) (fun _ _ => none)

/-- Per-employee phase offset (app.js:1335):
`Math.floor((index * cycleLength) / allEmployees.length)`. -/
def patternOffset (cycleLength numEmps i : Nat) : Nat :=
  (i * cycleLength) / numEmps

/-- `shouldWorkOnDay` (app.js:1359-1365).  With no pattern every employee is
always on; otherwise the pattern entry at `(day + offset) % cycleLength`
must be `1`. -/
def shouldWorkOnDay (pattern : Option (List Nat)) (numEmps empIdx d : Nat) : Bool :=
  match pattern with
  | none => true
  | some p =>
    let offset := patternOffset p.length numEmps empIdx
    p.getD ((d + offset) % p.length) 0 == 1

/-- The hardcoded priority map `{ N: 1, E: 2, D: 3 }` with fallback 10
(app.js:1341-1342). -/
def shiftPriority (code : String) : Nat :=
  if code == "N" then 1 else if code == "E" then 2 else if code == "D" then 3 else 10

/-- Stable insertion keeping earlier-inserted elements of equal key first. -/
def insertStable (key : α → Nat) (x : α) : List α → List α
  | [] => [x]
  | y :: ys => if key y ≤ key x then y :: insertStable key x ys else x :: y :: ys

/-- A stable sort by an integer key: the unique result of the in-place
`Array.prototype.sort` (stable per ECMA-262) with the pure comparator
`(a, b) => key(a) - key(b)` (app.js:1342). -/
def stableSortBy (key : α → Nat) (l : List α) : List α :=
  l.foldl (fun acc x => insertStable key x acc) []

/-- The availability filter for one working shift on one day
(app.js:1383-1407): cell still `null`, on-cycle per the rotation pattern,
not `N`-yesterday-`D`-today (checked against the first catalog entry whose
code equals yesterday's cell, which must be working-typed), and the running
consecutive-days counter still below `maxConsecutiveDays`. -/
def isAvailable (shifts : List Shift) (maxConsecutiveDays : Nat)
    (pattern : Option (List Nat)) (numEmps : Nat) (st : SchedState)
    (d : Nat) (shift : Shift) (emp : FlatEmp) : Bool :=
  (st.schedule emp.idx d == none) &&
  shouldWorkOnDay pattern numEmps emp.idx d &&
  (!(decide (d > 0) &&
     (match st.schedule emp.idx (d - 1) with
      | some prev =>
        prev ≠ "" &&
        (match shifts.find? (fun sh => sh.code == prev) with
         | some prevShift =>
           prevShift.stype == "working" && prevShift.code == "N" && shift.code == "D"
         | none => false)
      | none => false))) &&
  (st.consecutive emp.idx < maxConsecutiveDays)

/-- One call of the impure sort comparator (app.js:1410-1425) on the pair
`(a, b)`: each call recomputes both scores from the current counters and
draws one fresh noise value per compared candidate
(`seededRandom(seed++) * 0.5`), so the seed advances by two per call.
Returns whether `scoreA - scoreB < 0` together with the advanced seed. -/
def noisyLt (rng : Q → Q) (isNight : Bool) (total night : Nat → Nat)
    (a b : FlatEmp) (seed : Q) : Bool × Q :=
  let scoreA : Q :=
    (total a.idx : Q) + (if isNight then 2 * (night a.idx : Q) else 0) + rng seed * qHalf
  let scoreB : Q :=
    (total b.idx : Q) + (if isNight then 2 * (night b.idx : Q) else 0) + rng (seed + 1) * qHalf
  (decide (scoreA < scoreB), seed + 2)

/-- Insert `x` into an already-sorted list using the impure comparator,
placing `x` before the first element it compares strictly below (equal
scores keep the earlier element first). -/
def insertNoisy (rng : Q → Q) (isNight : Bool) (total night : Nat → Nat)
    (x : FlatEmp) : List FlatEmp → Q → List FlatEmp × Q
  | [], seed => ([x], seed)
  | y :: ys, seed =>
    let c := noisyLt rng isNight total night x y seed
    if c.1 then (x :: y :: ys, c.2)
    else
      let res := insertNoisy rng isNight total night x ys c.2
      (y :: res.1, res.2)

/-- `available.sort(comparator)` with the impure seeded comparator.
ECMA-262 leaves the sequence of comparator calls of `Array.prototype.sort`
implementation-defined; the embedding fixes it as left-to-right stable
insertion, threading the seed through the comparator calls. -/
def sortNoisy (rng : Q → Q) (isNight : Bool) (total night : Nat → Nat)
    (l : List FlatEmp) (seed : Q) : List FlatEmp × Q :=
  l.foldl (fun acc x => insertNoisy rng isNight total night x acc.1 acc.2) ([], seed)

/-- The assignment loop (app.js:1428-1435): walk the sorted candidates while
`assigned < requiredCount`, writing the shift code and bumping the fairness
counters (`night` only for code `N`).  Returns the state and the final
`assigned` count. -/
def assignLoop (code : String) (d requiredCount : Nat) :
    List FlatEmp → Nat → SchedState → SchedState × Nat
  | [], assigned, st => (st, assigned)
  | e :: rest, assigned, st =>
    if assigned < requiredCount then
      assignLoop code d requiredCount rest (assigned + 1)
        { st with
          schedule := setCell st.schedule e.idx d (some code),
          total := bumpAt st.total e.idx,
          night := if code == "N" then bumpAt st.night e.idx else st.night }
    else (st, assigned)

/-- The engine inputs `runScheduler` reads besides the running state. -/
structure Ctx where
  shifts : List Shift
  preset : String
  maxConsecutiveDays : Nat
  targetShiftsPerPerson : Nat
  pattern : Option (List Nat)
  emps : List FlatEmp
  dateStr : Nat → String
  isWeekend : Nat → Bool
  numDays : Nat

/-- The understaffing warning text (app.js:1439). -/
def shortfallMsg (d : Nat) (code : String) (assigned requiredCount : Nat) : String :=
  "Day " ++ toString (d + 1) ++ ": " ++ code ++ " shift understaffed (" ++
    toString assigned ++ "/" ++ toString requiredCount ++ ")"

/-- Processing of one working shift on one day (app.js:1373-1441):
coverage with the 8x5 weekend override, availability filter, noisy sort,
assignment loop, shortfall warning. -/
def processShift (rng : Q → Q) (ctx : Ctx) (d : Nat) (isWknd : Bool)
    (st : SchedState) (shift : Shift) : SchedState :=
  let coverage := shift.coverage.getD (getCoverageDefault ctx.preset shift.code)
  let requiredCount := if ctx.preset == "8x5" && isWknd then 0 else coverage
  let available := ctx.emps.filter
    (isAvailable ctx.shifts ctx.maxConsecutiveDays ctx.pattern ctx.emps.length st d shift)
  let sorted := sortNoisy rng (shift.code == "N") st.total st.night available st.seed
  let res := assignLoop shift.code d requiredCount sorted.1 0 { st with seed := sorted.2 }
  let st2 := res.1
  if res.2 < requiredCount then
    { st2 with warnings := st2.warnings ++ [shortfallMsg d shift.code res.2 requiredCount] }
  else st2

/-- Truthiness test of the consecutive-day accounting
(app.js:1445, 1491): `cell && !['LEAVE', 'TAD'].includes(cell)`. -/
def countsForConsecutive (c : Cell) : Bool :=
  match c with
  | some v => v ≠ "" && !(v == "LEAVE" || v == "TAD")
  | none => false

/-- End-of-day update of the running `consecutiveDays` counters
(app.js:1444-1450). -/
def updateConsecutive (d : Nat) (st : SchedState) : SchedState :=
  { st with
    consecutive := fun i =>
      if countsForConsecutive (st.schedule i d) then st.consecutive i + 1 else 0 }

/-- One iteration of the day loop (app.js:1368-1451): all working shifts in
priority order, then the consecutive-day update. -/
def processDay (rng : Q → Q) (ctx : Ctx) (workingShifts : List Shift)
    (st : SchedState) (d : Nat) : SchedState :=
  updateConsecutive d (workingShifts.foldl (processShift rng ctx d (ctx.isWeekend d)) st)

/-- The state after the first `k` iterations of the day loop. -/
def stateAfterDays (rng : Q → Q) (ctx : Ctx) (workingShifts : List Shift)
    (st : SchedState) (k : Nat) : SchedState :=
  (List.range k).foldl (processDay rng ctx workingShifts) st

/-- The backup fill pass (app.js:1453-1469): for the first backup-typed
shift, walk all days and employees; an empty, on-cycle cell of an employee
below 80% of `targetShiftsPerPerson` draws from the generator and is filled
(with a `total` bump) when the draw is below 0.3. -/
def backupPass (rng : Q → Q) (ctx : Ctx) (st : SchedState) : SchedState :=
  match ctx.shifts.find? (fun sh => sh.stype == "backup") with
  | none => st
  | some backupShift =>
    (List.range ctx.numDays).foldl
      (fun st d =>
        ctx.emps.foldl
          (fun st e =>
            if st.schedule e.idx d == none &&
               shouldWorkOnDay ctx.pattern ctx.emps.length e.idx d &&
               decide ((st.total e.idx : Q) < (ctx.targetShiftsPerPerson : Q) * qFourFifths) then
              if rng st.seed < qThreeTenths then
                { st with
                  seed := st.seed + 1,
                  schedule := setCell st.schedule e.idx d (some backupShift.code),
                  total := bumpAt st.total e.idx }
              else { st with seed := st.seed + 1 }
            else st)
          st)
      st

/-- The admin fill pass (app.js:1471-1484): like the backup pass but without
the 80% gate, with threshold 0.15 and without any counter bump. -/
def adminPass (rng : Q → Q) (ctx : Ctx) (st : SchedState) : SchedState :=
  match ctx.shifts.find? (fun sh => sh.stype == "admin") with
  | none => st
  | some adminShift =>
    (List.range ctx.numDays).foldl
      (fun st d =>
        ctx.emps.foldl
          (fun st e =>
            if st.schedule e.idx d == none &&
               shouldWorkOnDay ctx.pattern ctx.emps.length e.idx d then
              if rng st.seed < qThreeTwentieths then
                { st with
                  seed := st.seed + 1,
                  schedule := setCell st.schedule e.idx d (some adminShift.code) }
              else { st with seed := st.seed + 1 }
            else st)
          st)
      st

/-- The running-maximum fold of the violation audit (app.js:1488-1497) over
an arbitrary day predicate: first component the current run length, second
the maximum so far (`consecutive++; maxConsec = max(maxConsec,
consecutive)` on a counted day, reset to 0 otherwise). -/
def maxRunLoop (p : Nat → Bool) (numDays : Nat) : Nat × Nat :=
  (List.range numDays).foldl
    (fun acc d =>
      if p d then (acc.1 + 1, max acc.2 (acc.1 + 1)) else (0, acc.2))
    (0, 0)

/-- The consecutive-day warning text (app.js:1499). -/
def overrunMsg (name : String) (maxConsec maxConsecutiveDays : Nat) : String :=
  name ++ ": " ++ toString maxConsec ++ " consecutive days (max " ++
    toString maxConsecutiveDays ++ ")"

/-- The constraint-violation audit (app.js:1486-1501): per employee, the
longest run of truthy non-absence cells; a warning when it exceeds
`maxConsecutiveDays`. -/
def auditPass (ctx : Ctx) (st : SchedState) : SchedState :=
  ctx.emps.foldl
    (fun st e =>
      let maxConsec :=
        (maxRunLoop (fun d => countsForConsecutive (st.schedule e.idx d)) ctx.numDays).2
      if ctx.maxConsecutiveDays < maxConsec then
        { st with
          warnings := st.warnings ++ [overrunMsg e.name maxConsec ctx.maxConsecutiveDays] }
      else st)
    st

/-- The engine inputs as read from the application state
(app.js:1276-1356). -/
def mkCtx (dateStr : Nat → String) (isWeekend : Nat → Bool) (s : AppState) : Ctx :=
  { shifts := s.shifts,
    preset := s.coveragePreset,
    maxConsecutiveDays := s.constraints.maxConsecutiveDays,
    targetShiftsPerPerson := s.constraints.targetShiftsPerPerson,
    pattern := (getSelectedRotationPattern s).bind (fun p => p.pattern),
    emps := flattenEmployees s.groups,
    dateStr := dateStr,
    isWeekend := isWeekend,
    numDays := getDaysInPeriod s }

/-- The initial run state: pre-filled grid, zeroed counters, the stored
seed, empty warning list (app.js:1278, 1299-1322, 1344-1356). -/
def initState (ctx : Ctx) (seed : Q) : SchedState :=
  { schedule := prefillSchedule ctx.dateStr ctx.numDays ctx.emps,
    total := fun _ => 0,
    night := fun _ => 0,
    consecutive := fun _ => 0,
    seed := seed,
    warnings := [] }

/-- What one generation run produces: the grid, the fairness counters and
the ordered warning list. -/
structure SchedulerOutput where
  schedule : Nat → Nat → Cell
  total : Nat → Nat
  night : Nat → Nat
  warnings : List String

/-- The complete three-pass generation run (app.js:1276-1507) for a
non-empty roster: day loop over the priority-sorted working shifts, backup
fill, admin fill, violation audit. -/
def runSchedulerCore (rng : Q → Q) (dateStr : Nat → String)
    (isWeekend : Nat → Bool) (s : AppState) : SchedulerOutput :=
  let ctx := mkCtx dateStr isWeekend s
  let workingShifts :=
    stableSortBy (fun sh => shiftPriority sh.code) (ctx.shifts.filter (fun sh => sh.stype == "working"))
  let st1 := stateAfterDays rng ctx workingShifts (initState ctx s.randomSeed) ctx.numDays
  let st4 := auditPass ctx (adminPass rng ctx (backupPass rng ctx st1))
  { schedule := st4.schedule, total := st4.total, night := st4.night,
    warnings := st4.warnings }

/-- `runScheduler` (app.js:1276-1507): `none` models the alert-and-return
path for an empty roster (app.js:1294-1297). -/
def runScheduler (rng : Q → Q) (dateStr : Nat → String)
    (isWeekend : Nat → Bool) (s : AppState) : Option SchedulerOutput :=
  if flattenEmployees s.groups = [] then none
  else some (runSchedulerCore rng dateStr isWeekend s)

/-! ## Definitions modelled from the claims under test

These re-state, in the claims' own words, what the sentences of the spec
describe, to be compared with the definitions embedded from the source.
-/

/-- The `requiredCount` of a working shift on a day: the configured
coverage, overridden to 0 on weekends under the `8x5` preset. -/
def requiredCountFor (ctx : Ctx) (isWknd : Bool) (shift : Shift) : Nat :=
  if ctx.preset == "8x5" && isWknd then 0
  else shift.coverage.getD (getCoverageDefault ctx.preset shift.code)

/-- Modelled from claim C3, word for word: an employee is a candidate when
the cell is still `null`, the employee is on-cycle, has *not exceeded*
`maxConsecutiveDays` consecutive working days entering the day (that is,
`consecutive ≤ maxConsecutiveDays`), and is not blocked by the
`N`-yesterday / `D`-today adjacency rule. -/
def claimC3Candidate (shifts : List Shift) (maxConsecutiveDays : Nat)
    (pattern : Option (List Nat)) (numEmps : Nat) (st : SchedState)
    (d : Nat) (shift : Shift) (emp : FlatEmp) : Bool :=
  (st.schedule emp.idx d == none) &&
  shouldWorkOnDay pattern numEmps emp.idx d &&
  (!(shift.code == "D" && decide (0 < d) &&
     st.schedule emp.idx (d - 1) == some "N" &&
     shifts.any (fun sh => sh.code == "N" && sh.stype == "working"))) &&
  (st.consecutive emp.idx ≤ maxConsecutiveDays)

/-- The amended C3 candidate predicate: as `claimC3Candidate` but employees
whose running counter has already *reached* `maxConsecutiveDays` are
excluded (`consecutive < maxConsecutiveDays`), matching the source's
`consecutiveDays[emp.id] >= maxConsecutiveDays` rejection. -/
def amendedC3Candidate (shifts : List Shift) (maxConsecutiveDays : Nat)
    (pattern : Option (List Nat)) (numEmps : Nat) (st : SchedState)
    (d : Nat) (shift : Shift) (emp : FlatEmp) : Bool :=
  (st.schedule emp.idx d == none) &&
  shouldWorkOnDay pattern numEmps emp.idx d &&
  (!(shift.code == "D" && decide (0 < d) &&
     st.schedule emp.idx (d - 1) == some "N" &&
     shifts.any (fun sh => sh.code == "N" && sh.stype == "working"))) &&
  (st.consecutive emp.idx < maxConsecutiveDays)

/-- Stable insertion for an arbitrary strict comparison: the inserted
element goes before the first element it compares strictly below, hence
after every earlier element of equal rank. -/
def insertByLt (lt : α → α → Bool) (x : α) : List α → List α
  | [] => [x]
  | y :: ys => if lt x y then x :: y :: ys else y :: insertByLt lt x ys

/-- Stable sort built from `insertByLt`, inserting left to right. -/
def sortByLt (lt : α → α → Bool) (l : List α) : List α :=
  l.foldl (fun acc x => insertByLt lt x acc) []

/-- Modelled from claim C4, word for word: every candidate receives a
single score, computed once, of
`totalAssigned + (2 * nightAssigned if night shift) + noise1 + noise2`,
where `noise1`, `noise2` are successive draws each scaled by 0.5; draws are
consumed in candidate order. -/
def claimC4Scores (rng : Q → Q) (isNight : Bool) (total night : Nat → Nat) :
    List FlatEmp → Q → List (FlatEmp × Q) × Q
  | [], seed => ([], seed)
  | e :: rest, seed =>
    let score : Q :=
      (total e.idx : Q) + (if isNight then 2 * (night e.idx : Q) else 0) +
        rng seed * qHalf + rng (seed + 1) * qHalf
    let r := claimC4Scores rng isNight total night rest (seed + 2)
    ((e, score) :: r.1, r.2)

/-- Modelled from claim C4: the per-shift processing the claim describes —
score once per candidate, stable ascending sort by that score, then assign
the lowest-scoring candidates in order until `requiredCount` are filled or
candidates are exhausted. -/
def claimC4ProcessShift (rng : Q → Q) (ctx : Ctx) (d : Nat) (isWknd : Bool)
    (st : SchedState) (shift : Shift) : SchedState :=
  let requiredCount := requiredCountFor ctx isWknd shift
  let available := ctx.emps.filter
    (isAvailable ctx.shifts ctx.maxConsecutiveDays ctx.pattern ctx.emps.length st d shift)
  let scored := claimC4Scores rng (shift.code == "N") st.total st.night available st.seed
  let sorted := (sortByLt (fun a b => decide (a.2 < b.2)) scored.1).map Prod.fst
  let res := assignLoop shift.code d requiredCount sorted 0 { st with seed := scored.2 }
  let st2 := res.1
  if res.2 < requiredCount then
    { st2 with warnings := st2.warnings ++ [shortfallMsg d shift.code res.2 requiredCount] }
  else st2

/-- Modelled from claim C7: whether a cell holds a *working-category* shift
code of the catalog. -/
def isWorkingCategoryCell (shifts : List Shift) (c : Cell) : Bool :=
  match c with
  | some v => shifts.any (fun sh => sh.code == v && sh.stype == "working")
  | none => false

/-- There are `k` consecutive days, all satisfying `p`, inside the period. -/
def hasRunOfLen (p : Nat → Bool) (numDays k : Nat) : Prop :=
  ∃ a, a + k ≤ numDays ∧ ∀ j < k, p (a + j) = true

/-- Modelled from claim C7, word for word: after the run, for every
employee, a consecutive-day warning naming that employee appears if and
only if the longest run of consecutive days whose cell holds a
*working-category* code exceeds `maxConsecutiveDays` (`null`, `LEAVE`,
`TAD` and non-working codes do not extend a run), and any such warning
reports that maximum run length. -/
def claimC7Holds (rng : Q → Q) (dateStr : Nat → String)
    (isWeekend : Nat → Bool) (s : AppState) : Prop :=
  ∀ e ∈ flattenEmployees s.groups,
    ((∃ k, overrunMsg e.name k s.constraints.maxConsecutiveDays ∈
        (runSchedulerCore rng dateStr isWeekend s).warnings) ↔
      s.constraints.maxConsecutiveDays <
        (maxRunLoop
          (fun d => isWorkingCategoryCell s.shifts
            ((runSchedulerCore rng dateStr isWeekend s).schedule e.idx d))
          (getDaysInPeriod s)).2) ∧
    (∀ k, overrunMsg e.name k s.constraints.maxConsecutiveDays ∈
        (runSchedulerCore rng dateStr isWeekend s).warnings →
      k = (maxRunLoop
        (fun d => isWorkingCategoryCell s.shifts
          ((runSchedulerCore rng dateStr isWeekend s).schedule e.idx d))
        (getDaysInPeriod s)).2)

/-- Modelled from claim C10: whether a cell holds a shift code of working
or backup category (looked up like the source does, by the first catalog
entry with that code). -/
def isTotalCountedCell (shifts : List Shift) (c : Cell) : Bool :=
  match c with
  | some v =>
    (shifts.find? (fun sh => sh.code == v)).any
      (fun sh => sh.stype == "working" || sh.stype == "backup")
  | none => false

/-- Modelled from claim C10: whether a cell holds the code `N` of a
working-category catalog shift. -/
def isNightCountedCell (shifts : List Shift) (c : Cell) : Bool :=
  match c with
  | some v =>
    v == "N" &&
      (shifts.find? (fun sh => sh.code == "N")).any (fun sh => sh.stype == "working")
  | none => false

/-- The number of period days whose cell satisfies `p` in one employee's
row. -/
def countCells (p : Cell → Bool) (row : Nat → Cell) (numDays : Nat) : Nat :=
  (List.range numDays).countP (fun d => p (row d))

/-- The C10 invariant between the fairness counters and the grid: every
`total` counter equals the number of days of the row holding a working- or
backup-category code, and every `night` counter the number of days holding
the working code `N`. -/
def countersOk (shifts : List Shift) (numDays : Nat) (st : SchedState) : Prop :=
  ∀ i : Nat,
    st.total i = countCells (isTotalCountedCell shifts) (st.schedule i) numDays ∧
    st.night i = countCells (isNightCountedCell shifts) (st.schedule i) numDays

/-! ## Concrete scenarios used by counterexamples and witnesses -/

/-- The literal initial `AppState` (app.js:36-57), the baseline for the
concrete scenarios below. -/
def baseState : AppState :=
  { industry := "healthcare", calendarStyle := "monthly",
    departmentName := "Emergency Department", month := 4, year := 2025,
    startDate := none, duration := 14, coveragePreset := "24_7",
    rotationPattern := "custom", shifts := [], groups := [],
    constraints :=
      { minRestHours := 8, maxHoursWeek := 60, maxConsecutiveDays := 6,
        targetShiftsPerPerson := 10 },
    schedule := none, shiftCounts := none, warnings := [], randomSeed := 0 }

/-- Day-to-date-string table for two-day scenarios: May 1-2, 2025 in
`YYYY-MM-DD` format, as `formatDateStr(getDateForDay d)` produces. -/
def mayDateStr : Nat → String :=
  fun d => "2025-05-0" ++ toString (d + 1)

/-- All-weekday classification for the scenarios. -/
def noWeekend : Nat → Bool := fun _ => false

/-- A generator that always draws 0 (every draw is below every threshold). -/
def rngZero : Q → Q := fun _ => 0

/-- One working shift `W` needing one person per day. -/
def shiftW : Shift := { code := "W", stype := "working", coverage := some 1 }

/-- A backup shift `B`. -/
def shiftB : Shift := { code := "B", stype := "backup", coverage := none }

def empAnn : Employee := { name := "Ann", unavailability := [] }

def empBen : Employee := { name := "Ben", unavailability := [] }

/-- Two-day, one-employee scenario with `maxConsecutiveDays = 1`:
`W` is assigned on day 0, day 1 is blocked by the consecutive cap. -/
def capState : AppState :=
  { baseState with
    calendarStyle := "duration", duration := 2,
    shifts := [shiftW],
    groups := [{ name := "Team", employees := [empAnn] }],
    constraints := { baseState.constraints with maxConsecutiveDays := 1 } }

/-- `capState` extended with a backup shift: the backup pass fills day 1,
so the audited run is `W`, `B`. -/
def capBackupState : AppState :=
  { capState with shifts := [shiftW, shiftB] }

/-- Two employees, one working shift, one day: exposes the order of the
noise draws inside the sort comparator. -/
def pairState : AppState :=
  { baseState with
    calendarStyle := "duration", duration := 1,
    shifts := [shiftW],
    groups := [{ name := "Team", employees := [empAnn, empBen] }] }

/-- The generator driving the C4 counterexample: draws 0, 1/2, 9/10, 9/10
on seeds 0-3 and 0 afterwards. -/
def rngC4 : Q → Q :=
  fun q => if q = 0 then 0 else if q = 1 then qHalf
    else if q = 2 then ⟨9, 10⟩ else if q = 3 then ⟨9, 10⟩ else 0

/-- A `LEAVE` window whose `endDate` was never filled in. -/
def openEndedWindow : UnavailWindow :=
  { kind := "LEAVE", startDate := "2025-05-02", endDate := "" }

/-- One employee with the open-ended window, over May 1-2, 2025. -/
def openEndedState : AppState :=
  { baseState with
    calendarStyle := "duration", duration := 2,
    shifts := [shiftW],
    groups := [{ name := "Team",
                 employees := [{ name := "Ann",
                                 unavailability := [openEndedWindow] }] }] }

/-- The engine inputs of `capState`. -/
def capCtx : Ctx := mkCtx mayDateStr noWeekend capState

/-- The priority-sorted working-shift list of `capState`. -/
def capWorkingShifts : List Shift :=
  stableSortBy (fun sh => shiftPriority sh.code)
    (capState.shifts.filter (fun sh => sh.stype == "working"))

/-- The run state of `capState` entering day 1 (after the day-0
iteration). -/
def capAfterDay1 : SchedState :=
  stateAfterDays rngZero capCtx capWorkingShifts (initState capCtx 0) 1

/-- The engine inputs of `pairState`. -/
def pairCtx : Ctx := mkCtx mayDateStr noWeekend pairState

/-- The initial run state of `pairState` with seed 0. -/
def pairInit : SchedState := initState pairCtx 0

/-- The flattened roster entry of Ann, first employee of the one-group
scenarios. -/
def annFlat : FlatEmp :=
  { name := "Ann", unavailability := [], groupIndex := 0,
    groupName := "Team", empIndex := 0, idx := 0 }

/-- A two-day `LEAVE` window covering May 1-2, 2025. -/
def leaveWindow : UnavailWindow :=
  { kind := "LEAVE", startDate := "2025-05-01", endDate := "2025-05-02" }

/-- Ann fully on leave over the two-day period, Ben available. -/
def leaveState : AppState :=
  { baseState with
    calendarStyle := "duration", duration := 2,
    shifts := [shiftW],
    groups := [{ name := "Team",
                 employees := [{ name := "Ann", unavailability := [leaveWindow] },
                               empBen] }] }

/-! ## Helper lemmas: 400-year periodicity of the calendar arithmetic -/

theorem dayFromYear_add_400 (y : Int) :
    dayFromYear (y + 400) = dayFromYear y + 146097 := by
  unfold dayFromYear
  omega

theorem isLeap_add_400 (y : Int) : isLeap (y + 400) = isLeap y := by
  have h4 : (y + 400) % 4 = y % 4 := by omega
  have h100 : (y + 400) % 100 = y % 100 := by omega
  have h400 : (y + 400) % 400 = y % 400 := by omega
  simp [isLeap, h4, h100, h400]

theorem dateOfDayNumber_add_146097 (z : Int) :
    dateOfDayNumber (z + 146097) = dateOfDayNumber z := by
  simp only [dateOfDayNumber]
  congr 1
  omega

theorem makeDay_add_400 (y mo dt : Int) :
    makeDay (y + 400) mo dt = makeDay y mo dt + 146097 := by
  simp only [makeDay]
  have h1 : y + 400 + mo / 12 = y + mo / 12 + 400 := by ring
  rw [h1, dayFromYear_add_400, isLeap_add_400]
  ring

theorem jsDaysInMonthRaw_add_400 (y m : Int) :
    jsDaysInMonthRaw (y + 400) m = jsDaysInMonthRaw y m := by
  unfold jsDaysInMonthRaw
  rw [makeDay_add_400, dateOfDayNumber_add_146097]

theorem jsDaysInMonthRaw_add_mul_400 (q y m : Int) :
    jsDaysInMonthRaw (y + 400 * q) m = jsDaysInMonthRaw y m := by
  induction q using Int.induction_on with
  | hz => simp
  | hp k ih =>
    have e : y + 400 * ((k : Int) + 1) = y + 400 * (k : Int) + 400 := by ring
    rw [e, jsDaysInMonthRaw_add_400, ih]
  | hn k ih =>
    have h := jsDaysInMonthRaw_add_400 (y + 400 * (-(k : Int) - 1)) m
    have e : y + 400 * (-(k : Int) - 1) + 400 = y + 400 * (-(k : Int)) := by ring
    rw [e] at h
    exact h.symm.trans ih

theorem isLeap_add_mul_400 (q y : Int) : isLeap (y + 400 * q) = isLeap y := by
  have h4 : (y + 400 * q) % 4 = y % 4 := by omega
  have h100 : (y + 400 * q) % 100 = y % 100 := by omega
  have h400 : (y + 400 * q) % 400 = y % 400 := by omega
  simp [isLeap, h4, h100, h400]

set_option maxRecDepth 10000 in
set_option maxHeartbeats 8000000 in
/-- Exhaustive check of one full 400-year Gregorian cycle: the embedded
`new Date(y, m + 1, 0).getDate()` computation agrees with the month-length
table for every year residue and month. -/
theorem jsDaysInMonthRaw_cycle_check : ∀ r : Fin 400, ∀ m : Fin 12,
    jsDaysInMonthRaw (r.val : Int) (m.val : Int) =
      monthLen (isLeap (r.val : Int)) m.val := by
  decide

theorem jsDaysInMonthRaw_eq (y : Int) (m : Nat) (hm : m < 12) :
    jsDaysInMonthRaw y (m : Int) = actualDaysInMonth y m := by
  have hq : y = y % 400 + 400 * (y / 400) := by omega
  have hr0 : 0 ≤ y % 400 := by omega
  have hr1 : y % 400 < 400 := by omega
  have hfin := jsDaysInMonthRaw_cycle_check
    ⟨(y % 400).toNat, by omega⟩ ⟨m, hm⟩
  have hcast : (((y % 400).toNat : Nat) : Int) = y % 400 := by omega
  simp only [hcast] at hfin
  calc jsDaysInMonthRaw y (m : Int)
      = jsDaysInMonthRaw (y % 400 + 400 * (y / 400)) (m : Int) := by rw [← hq]
    _ = jsDaysInMonthRaw (y % 400) (m : Int) := jsDaysInMonthRaw_add_mul_400 _ _ _
    _ = monthLen (isLeap (y % 400)) m := hfin
    _ = monthLen (isLeap y) m := by
          conv_rhs => rw [hq]
          rw [isLeap_add_mul_400]
    _ = actualDaysInMonth y m := rfl

/-- Only February depends on leapness. -/
theorem monthLen_indep (a b : Bool) : ∀ m : Nat, m ≠ 1 → monthLen a m = monthLen b m := by
  intro m h
  rcases m with _ | _ | _ | _ | _ | _ | _ | _ | _ | _ | _ | n <;>
    cases a <;> cases b <;> first | rfl | exact absurd rfl h

/-- Every month has at least 28 days. -/
theorem monthLen_ge_28 (leap : Bool) (m : Nat) : 28 ≤ monthLen leap m := by
  rcases m with _ | _ | _ | _ | _ | _ | _ | _ | _ | _ | _ | n <;> cases leap <;>
    simp [monthLen]

/-- For user years 1-99 the 1900-year shift does not change leapness (the
shift only matters for year 0, which is a leap year while 1900 is not). -/
theorem isLeap_1900_shift : ∀ r : Fin 99,
    isLeap (1900 + ((r.val : Int) + 1)) = isLeap ((r.val : Int) + 1) := by
  decide

theorem actualDaysInMonth_makeFullYear (y : Int) (m : Nat)
    (h : ¬(y = 0 ∧ m = 1)) :
    actualDaysInMonth (makeFullYear y) m = actualDaysInMonth y m := by
  unfold makeFullYear
  by_cases hr : 0 ≤ y ∧ y ≤ 99
  · rw [if_pos hr]
    by_cases hy0 : y = 0
    · have hm1 : m ≠ 1 := fun hm1 => h ⟨hy0, hm1⟩
      subst hy0
      exact monthLen_indep _ _ m hm1
    · have hy1 : 1 ≤ y := by omega
      have hlem := isLeap_1900_shift ⟨(y - 1).toNat, by omega⟩
      have e : (((y - 1).toNat : Nat) : Int) + 1 = y := by omega
      rw [e] at hlem
      unfold actualDaysInMonth
      rw [hlem]
  · rw [if_neg hr]

/-- Whenever the checked resolver yields a day count, the `Nat`-valued
resolver used by the engine embedding computes that same count. -/
theorem getDaysInPeriodChecked_sound (s : AppState) (n : Nat)
    (h : getDaysInPeriodChecked s = some n) : getDaysInPeriod s = n := by
  unfold getDaysInPeriodChecked at h
  unfold getDaysInPeriod
  by_cases hsty : (s.calendarStyle == "monthly") = true
  · rw [hsty] at h
    rw [hsty]
    simp only [if_true] at h ⊢
    unfold jsDaysInMonthClipped at h
    rcases hclip : timeClipOkDay (makeDay (makeFullYear s.year) (s.month + 1) 0) with _ | _
    · rw [hclip] at h
      simp at h
    · rw [hclip] at h
      simp only [if_true, Option.map_some] at h
      exact (Option.some.injEq _ _ ▸ h)
  · rw [Bool.not_eq_true] at hsty
    rw [hsty] at h
    rw [hsty]
    simpa using h

/-- C9, counterexample: in month mode with `year = 0`, `month = 1`
(February), the calendar resolver returns 28 days, while February of the
leap year 0 actually has 29: the `Date` constructor reads a year between 0
and 99 as 1900 + year, and 1900 is not a leap year. -/
theorem c9_counterexample :
    ({ baseState with year := 0, month := 1 } : AppState).calendarStyle = "monthly" ∧
    getDaysInPeriodChecked { baseState with year := 0, month := 1 } = some 28 ∧
    actualDaysInMonth 0 1 = 29 := by
  decide

/-- C9 (amended): in month mode, when the constructed end-of-month `Date`
is within the `TimeClip` range (day number within ±100,000,000 of the
epoch), `numDays` equals the actual number of calendar days of the
configured month — including 29 for February of leap years — for every
year and month index except February of year 0, where the two-digit-year
reinterpretation (0-99 mapped to 1900-1999) changes the leap-year status
and the resolver returns 28 instead of 29; when the `Date` is out of
range it is invalid, `getDate()` is `NaN`, and no day count is produced. -/
theorem c9_amended (s : AppState) (hstyle : s.calendarStyle = "monthly")
    (hm0 : 0 ≤ s.month) (hm : s.month < 12) :
    (timeClipOkDay (makeDay (makeFullYear s.year) (s.month + 1) 0) = false →
      getDaysInPeriodChecked s = none) ∧
    (timeClipOkDay (makeDay (makeFullYear s.year) (s.month + 1) 0) = true →
      ¬(s.year = 0 ∧ s.month = 1) →
      getDaysInPeriodChecked s =
        some (actualDaysInMonth s.year s.month.toNat).toNat ∧
      (getDaysInPeriod s : Int) = actualDaysInMonth s.year s.month.toNat) := by
  constructor
  · intro hclip
    simp [getDaysInPeriodChecked, hstyle, jsDaysInMonthClipped, hclip]
  · intro hclip hy
    have hmn : s.month.toNat < 12 := by omega
    have hcast : ((s.month.toNat : Nat) : Int) = s.month := by omega
    have h1 : jsDaysInMonth s.year s.month = actualDaysInMonth s.year s.month.toNat := by
      unfold jsDaysInMonth
      rw [← hcast, jsDaysInMonthRaw_eq _ _ hmn]
      exact actualDaysInMonth_makeFullYear s.year s.month.toNat
        (fun hc => hy ⟨hc.1, by omega⟩)
    have hpos : 0 ≤ jsDaysInMonth s.year s.month := by
      rw [h1]
      exact le_trans (by norm_num) (monthLen_ge_28 _ _)
    constructor
    · simp only [getDaysInPeriodChecked, hstyle, beq_self_eq_true, if_true,
        jsDaysInMonthClipped, hclip, Option.map_some]
      rw [h1]
      rfl
    · simp only [getDaysInPeriod, hstyle, beq_self_eq_true, if_true]
      rw [Int.toNat_of_nonneg hpos, h1]

/-- C9 witness: the amended statement applied to February 2024 (a leap
year, within the `Date` range), where the resolver indeed returns the
actual month length, 29. -/
theorem c9_amended_witness :
    (timeClipOkDay (makeDay (makeFullYear 2024) (1 + 1) 0) = false →
      getDaysInPeriodChecked { baseState with year := 2024, month := 1 } = none) ∧
    (timeClipOkDay (makeDay (makeFullYear 2024) (1 + 1) 0) = true →
      ¬((2024 : Int) = 0 ∧ (1 : Int) = 1) →
      getDaysInPeriodChecked { baseState with year := 2024, month := 1 } =
        some (actualDaysInMonth 2024 (1 : Int).toNat).toNat ∧
      (getDaysInPeriod { baseState with year := 2024, month := 1 } : Int) =
        actualDaysInMonth 2024 (1 : Int).toNat) :=
  c9_amended { baseState with year := 2024, month := 1 } rfl
    (by decide) (by decide)

/-! ## C2: determinism -/

/-- C2: one generation run is a pure function of the scheduler inputs —
the period configuration (`calendarStyle`, `month`, `year`, `startDate`,
`duration` and the date/weekend functions derived from them), the shift
catalog, the coverage preset, the selected rotation pattern (id plus
industry, which selects the catalog), the groups with their unavailability
windows, the constraints and the seed.  Two application states agreeing on
those — even if they differ in `departmentName` or in previously stored
`schedule`, `shiftCounts` and `warnings` — produce identical grids,
identical fairness counters and identical ordered warning lists. -/
theorem c2_deterministic (rng : Q → Q) (dateStr : Nat → String)
    (isWeekend : Nat → Bool) (s1 s2 : AppState)
    (hind : s1.industry = s2.industry)
    (hsty : s1.calendarStyle = s2.calendarStyle)
    (hmon : s1.month = s2.month)
    (hyear : s1.year = s2.year)
    (hstart : s1.startDate = s2.startDate)
    (hdur : s1.duration = s2.duration)
    (hcov : s1.coveragePreset = s2.coveragePreset)
    (hrot : s1.rotationPattern = s2.rotationPattern)
    (hshifts : s1.shifts = s2.shifts)
    (hgroups : s1.groups = s2.groups)
    (hcons : s1.constraints = s2.constraints)
    (hseed : s1.randomSeed = s2.randomSeed) :
    runScheduler rng dateStr isWeekend s1 = runScheduler rng dateStr isWeekend s2 := by
  obtain ⟨i1, cs1, dn1, mo1, y1, sd1, du1, cp1, rp1, sh1, g1, cn1, sc1, ct1, w1, rs1⟩ := s1
  obtain ⟨i2, cs2, dn2, mo2, y2, sd2, du2, cp2, rp2, sh2, g2, cn2, sc2, ct2, w2, rs2⟩ := s2
  simp only at hind hsty hmon hyear hstart hdur hcov hrot hshifts hgroups hcons hseed
  subst hind hsty hmon hyear hstart hdur hcov hrot hshifts hgroups hcons hseed
  rfl

/-- C2 witness: two states that differ only in `departmentName` and in the
stale `warnings`/`schedule` output slots give the same run result. -/
theorem c2_deterministic_witness :
    runScheduler rngZero mayDateStr noWeekend
        { capState with departmentName := "East Wing", warnings := ["stale"] } =
      runScheduler rngZero mayDateStr noWeekend
        { capState with departmentName := "West Wing" } :=
  c2_deterministic rngZero mayDateStr noWeekend _ _
    rfl rfl rfl rfl rfl rfl rfl rfl rfl rfl rfl rfl

/-! ## C6: rotation-pattern staggering -/

/-- C6: with a selected pattern of cycle length `L = p.length` and
`numEmps ≥ 1` employees, employee `i` receives phase offset
`⌊i * L / numEmps⌋`, that offset lies in `[0, L)`, and the employee is
on-cycle on day `d` exactly when `p[(d + offset) % L] = 1`; with no pattern
selected every employee is on-cycle every day. -/
theorem c6_rotation (p : List Nat) (hp : p ≠ []) (numEmps i d : Nat)
    (hiE : i < numEmps) (j : Fin p.length)
    (hj : (j : Nat) = (d + i * p.length / numEmps) % p.length) :
    patternOffset p.length numEmps i = i * p.length / numEmps ∧
    patternOffset p.length numEmps i < p.length ∧
    (shouldWorkOnDay (some p) numEmps i d = true ↔ p.get j = 1) ∧
    shouldWorkOnDay none numEmps i d = true := by
  have hL : 0 < p.length := List.length_pos.mpr hp
  refine ⟨rfl, ?_, ?_, rfl⟩
  · unfold patternOffset
    rw [Nat.div_lt_iff_lt_mul (by omega)]
    calc i * p.length < numEmps * p.length :=
          (Nat.mul_lt_mul_right hL).mpr hiE
      _ = p.length * numEmps := Nat.mul_comm _ _
  · simp only [shouldWorkOnDay, patternOffset]
    rw [← hj, List.getD_eq_getElem p 0 (hj ▸ j.isLt), List.get_eq_getElem]
    exact beq_iff_eq

/-- C6 witness: the 4-on-4-off pattern (cycle 8) with two employees gives
employee 1 the offset 4, and day 0 falls on a `0` entry for that
employee. -/
theorem c6_rotation_witness :
    patternOffset 8 2 1 = 1 * 8 / 2 ∧
    patternOffset 8 2 1 < 8 ∧
    (shouldWorkOnDay (some [1, 1, 1, 1, 0, 0, 0, 0]) 2 1 0 = true ↔
      ([1, 1, 1, 1, 0, 0, 0, 0] : List Nat).get ⟨4, by decide⟩ = 1) ∧
    shouldWorkOnDay none 2 1 0 = true :=
  c6_rotation [1, 1, 1, 1, 0, 0, 0, 0] (by decide) 2 1 0 (by decide)
    ⟨4, by decide⟩ (by decide)

/-! ## Helper lemmas about the per-shift assignment step -/

theorem insertNoisy_length (rng : Q → Q) (isN : Bool) (total night : Nat → Nat)
    (x : FlatEmp) : ∀ (l : List FlatEmp) (s : Q),
    (insertNoisy rng isN total night x l s).1.length = l.length + 1 := by
  intro l
  induction l with
  | nil => intro s; rfl
  | cons y ys ih =>
    intro s
    simp only [insertNoisy]
    split
    · rfl
    · simp [ih]

theorem sortNoisy_aux_length (rng : Q → Q) (isN : Bool) (total night : Nat → Nat) :
    ∀ (l : List FlatEmp) (acc : List FlatEmp × Q),
    (l.foldl (fun acc x => insertNoisy rng isN total night x acc.1 acc.2) acc).1.length =
      acc.1.length + l.length := by
  intro l
  induction l with
  | nil => intro acc; rfl
  | cons x xs ih =>
    intro acc
    rw [List.foldl_cons, ih]
    simp [insertNoisy_length]
    omega

theorem sortNoisy_length (rng : Q → Q) (isN : Bool) (total night : Nat → Nat)
    (l : List FlatEmp) (s : Q) :
    (sortNoisy rng isN total night l s).1.length = l.length := by
  unfold sortNoisy
  rw [sortNoisy_aux_length]
  simp

theorem insertNoisy_perm (rng : Q → Q) (isN : Bool) (total night : Nat → Nat)
    (x : FlatEmp) : ∀ (l : List FlatEmp) (s : Q),
    (insertNoisy rng isN total night x l s).1.Perm (x :: l) := by
  intro l
  induction l with
  | nil => intro s; exact List.Perm.refl _
  | cons y ys ih =>
    intro s
    simp only [insertNoisy]
    split
    · exact List.Perm.refl _
    · exact ((ih _).cons y).trans (List.Perm.swap x y ys)

theorem sortNoisy_aux_perm (rng : Q → Q) (isN : Bool) (total night : Nat → Nat) :
    ∀ (l : List FlatEmp) (acc : List FlatEmp × Q),
    (l.foldl (fun acc x => insertNoisy rng isN total night x acc.1 acc.2) acc).1.Perm
      (acc.1 ++ l) := by
  intro l
  induction l with
  | nil => intro acc; simp
  | cons x xs ih =>
    intro acc
    rw [List.foldl_cons]
    refine (ih _).trans ?_
    refine (List.Perm.append_right xs (insertNoisy_perm rng isN total night x acc.1 acc.2)).trans ?_
    exact List.perm_middle.symm

theorem sortNoisy_perm (rng : Q → Q) (isN : Bool) (total night : Nat → Nat)
    (l : List FlatEmp) (s : Q) :
    (sortNoisy rng isN total night l s).1.Perm l := by
  unfold sortNoisy
  exact sortNoisy_aux_perm rng isN total night l ([], s)

theorem assignLoop_assigned (code : String) (d req : Nat) :
    ∀ (L : List FlatEmp) (a : Nat) (st : SchedState),
    (assignLoop code d req L a st).2 = if a < req then min req (a + L.length) else a := by
  intro L
  induction L with
  | nil =>
    intro a st
    simp only [assignLoop, List.length_nil]
    split <;> omega
  | cons e rest ih =>
    intro a st
    simp only [assignLoop, List.length_cons]
    split
    · rw [ih]
      split <;> omega
    · rfl

theorem assignLoop_assigned_zero (code : String) (d req : Nat)
    (L : List FlatEmp) (st : SchedState) :
    (assignLoop code d req L 0 st).2 = min req L.length := by
  rw [assignLoop_assigned]
  split <;> omega

theorem assignLoop_warnings (code : String) (d req : Nat) :
    ∀ (L : List FlatEmp) (a : Nat) (st : SchedState),
    (assignLoop code d req L a st).1.warnings = st.warnings := by
  intro L
  induction L with
  | nil => intro a st; rfl
  | cons e rest ih =>
    intro a st
    simp only [assignLoop]
    split
    · rw [ih]
    · rfl

theorem assignLoop_schedule (code : String) (d req : Nat) :
    ∀ (L : List FlatEmp) (a : Nat) (st : SchedState),
    (assignLoop code d req L a st).1.schedule =
      (L.take (req - a)).foldl
        (fun sch e => setCell sch e.idx d (some code)) st.schedule := by
  intro L
  induction L with
  | nil => intro a st; simp [assignLoop]
  | cons e rest ih =>
    intro a st
    simp only [assignLoop]
    split
    · rw [ih]
      have htake : req - a = (req - (a + 1)) + 1 := by omega
      rw [htake, List.take_succ_cons, List.foldl_cons]
    · have htake : req - a = 0 := by omega
      rw [htake, List.take_zero, List.foldl_nil]

/-! ## C5: shortfall warnings -/

/-- C5: for every day `d` and working shift, with `requiredCount` the
configured coverage overridden to 0 on `8x5` weekends, the per-shift step
appends exactly one shortfall warning if and only if the number actually
assigned — which is the minimum of `requiredCount` and the number of
available candidates — is strictly below `requiredCount`; the warning names
the 1-indexed day `d + 1`, the shift code, and the actual and required
counts. -/
theorem c5_shortfall (rng : Q → Q) (ctx : Ctx) (d : Nat) (isWknd : Bool)
    (st : SchedState) (shift : Shift) :
    (processShift rng ctx d isWknd st shift).warnings =
      st.warnings ++
        (if min (requiredCountFor ctx isWknd shift)
              (ctx.emps.filter
                (isAvailable ctx.shifts ctx.maxConsecutiveDays ctx.pattern
                  ctx.emps.length st d shift)).length <
            requiredCountFor ctx isWknd shift then
          ["Day " ++ toString (d + 1) ++ ": " ++ shift.code ++
            " shift understaffed (" ++
            toString (min (requiredCountFor ctx isWknd shift)
              (ctx.emps.filter
                (isAvailable ctx.shifts ctx.maxConsecutiveDays ctx.pattern
                  ctx.emps.length st d shift)).length) ++
            "/" ++ toString (requiredCountFor ctx isWknd shift) ++ ")"]
        else []) := by
  simp only [processShift, requiredCountFor, shortfallMsg]
  generalize (if ctx.preset == "8x5" && isWknd then (0 : Nat)
    else shift.coverage.getD (getCoverageDefault ctx.preset shift.code)) = R
  rw [assignLoop_assigned_zero, sortNoisy_length]
  by_cases hc :
      min R (ctx.emps.filter
        (isAvailable ctx.shifts ctx.maxConsecutiveDays ctx.pattern
          ctx.emps.length st d shift)).length < R
  · rw [if_pos hc, if_pos hc]
    simp [assignLoop_warnings]
  · rw [if_neg hc, if_neg hc]
    simp [assignLoop_warnings]

/-! ## C8: ill-formed unavailability windows -/

/-- C8, counterexample: a window with a `startDate` but a missing
(empty) `endDate` is *not* skipped — the pre-fill writes its marker into
the grid: with the window `[2025-05-02, ⟨empty⟩]`, the cell of day 1
(2025-05-02) is pre-set to `LEAVE`. -/
theorem c8_counterexample :
    openEndedWindow.endDate = "" ∧
    prefillSchedule mayDateStr 2 (flattenEmployees openEndedState.groups) 0 1 =
      some "LEAVE" := by
  decide

/-- C8 (amended): a window with a falsy (missing) `startDate` is skipped —
it pre-sets no grid cell — and the run raises no error (the pre-fill is a
total function); but a window with a `startDate` and a falsy `endDate` is
*not* skipped: it behaves as the one-day window `[startDate, startDate]`. -/
theorem c8_amended (dateStr : Nat → String) (numDays i : Nat)
    (sch : Nat → Nat → Cell) (u : UnavailWindow) :
    (u.startDate = "" → applyWindow dateStr numDays i sch u = sch) ∧
    (u.endDate = "" →
      applyWindow dateStr numDays i sch u =
        applyWindow dateStr numDays i sch { u with endDate := u.startDate }) := by
  constructor
  · intro h
    unfold applyWindow
    rw [if_pos h]
  · intro h
    by_cases hs : u.startDate = ""
    · simp [applyWindow, hs]
    · simp [applyWindow, hs, h]

/-- C8 witness: a window with no `startDate` leaves the grid untouched. -/
theorem c8_amended_witness :
    applyWindow mayDateStr 2 0 (fun _ _ => none)
        { kind := "LEAVE", startDate := "", endDate := "" } =
      (fun _ _ => none) :=
  (c8_amended mayDateStr 2 0 (fun _ _ => none)
    { kind := "LEAVE", startDate := "", endDate := "" }).1 rfl

/-! ## C3: the candidate set of a working shift -/

theorem pairwise_code_unique {shifts : List Shift}
    (hu : shifts.Pairwise (fun a b => a.code ≠ b.code))
    {a b : Shift} (ha : a ∈ shifts) (hb : b ∈ shifts) (hab : a.code = b.code) :
    a = b := by
  by_contra hne
  exact (List.Pairwise.forall (fun _ _ h => h.symm) hu ha hb hne) hab

/-- Under code uniqueness, the engine's availability test coincides with
the amended candidate predicate: the source checks the adjacency rule by
looking up yesterday's cell in the catalog and requiring the found entry to
be the working shift coded `N` while today's shift is coded `D`; the
amended phrasing asks for yesterday's cell to read `N`, the catalog to
contain a working shift coded `N`, and today's code to be `D`. -/
theorem availablePred_eq (shifts : List Shift)
    (hu : shifts.Pairwise (fun a b => a.code ≠ b.code))
    (maxConsecutiveDays : Nat) (pattern : Option (List Nat)) (numEmps : Nat)
    (st : SchedState) (d : Nat) (shift : Shift) (emp : FlatEmp) :
    isAvailable shifts maxConsecutiveDays pattern numEmps st d shift emp =
      amendedC3Candidate shifts maxConsecutiveDays pattern numEmps st d shift emp := by
  unfold isAvailable amendedC3Candidate
  cases hcell : st.schedule emp.idx (d - 1) with
  | none => simp [hcell]
  | some prev =>
    by_cases hprev : prev = "N"
    · subst hprev
      cases hfind : shifts.find? (fun sh => sh.code == "N") with
      | none =>
        have hany : shifts.any (fun sh => sh.code == "N" && sh.stype == "working") = false := by
          rw [List.any_eq_false]
          intro sh hsh hq
          rw [Bool.and_eq_true] at hq
          exact List.find?_eq_none.mp hfind sh hsh hq.1
        simp [hcell, hfind, hany]
      | some ps =>
        have hps_code : ps.code = "N" := by simpa using List.find?_some hfind
        have hps_mem : ps ∈ shifts := List.mem_of_find?_eq_some hfind
        have hany : shifts.any (fun sh => sh.code == "N" && sh.stype == "working") =
            (ps.stype == "working") := by
          cases hw : ps.stype == "working" with
          | true =>
            rw [List.any_eq_true]
            exact ⟨ps, hps_mem, by rw [Bool.and_eq_true]; exact ⟨by simp [hps_code], hw⟩⟩
          | false =>
            rw [List.any_eq_false]
            intro sh hsh hq
            rw [Bool.and_eq_true] at hq
            have hsc : sh.code = "N" := by simpa using hq.1
            have hse : sh = ps :=
              pairwise_code_unique hu hsh hps_mem (hsc.trans hps_code.symm)
            have hq2 := hq.2
            rw [hse, hw] at hq2
            exact absurd hq2 (by simp)
        by_cases hd : 0 < d <;> cases hD : shift.code == "D" <;>
          cases hw : ps.stype == "working" <;>
            simp [hcell, hfind, hany, hps_code, hd, hD, hw]
    · have hbe : (prev == "N") = false := by simp [hprev]
      cases hfind : shifts.find? (fun sh => sh.code == prev) with
      | none => simp [hcell, hfind, hprev, hbe]
      | some ps =>
        have hpsc : ps.code = prev := by simpa using List.find?_some hfind
        have hfalse : (ps.code == "N") = false := by simp [hpsc, hprev]
        simp [hcell, hfind, hfalse, hprev, hbe]

/-- C3 (amended): for every state, day and working shift, the candidate
list the engine filters from the roster is exactly the set of employees
with a still-null cell on the day, on-cycle per the rotation pattern, not
blocked by the `N`-yesterday/`D`-today adjacency rule, and with *strictly
fewer* than `maxConsecutiveDays` consecutive working days entering the day;
no other employee is a candidate and no other condition excludes one.  (The
claim's "have not exceeded" would also admit an employee at exactly the
cap, which the engine rejects.)  Code uniqueness of the catalog backs the
adjacency lookup. -/
theorem c3_amended (shifts : List Shift) (maxConsecutiveDays : Nat)
    (pattern : Option (List Nat)) (numEmps : Nat) (st : SchedState)
    (d : Nat) (shift : Shift) (emps : List FlatEmp)
    (hu : shifts.Pairwise (fun a b => a.code ≠ b.code)) :
    emps.filter (isAvailable shifts maxConsecutiveDays pattern numEmps st d shift) =
      emps.filter (amendedC3Candidate shifts maxConsecutiveDays pattern numEmps st d shift) := by
  apply List.filter_congr
  intro emp _
  exact availablePred_eq shifts hu maxConsecutiveDays pattern numEmps st d shift emp

/-- C3 witness: the amended candidate-set equation evaluated in the
`capState` scenario on day 1, where the engine's filter and the amended
predicate agree (both empty: Ann sits at the consecutive cap). -/
theorem c3_amended_witness :
    capCtx.emps.filter
        (isAvailable capCtx.shifts capCtx.maxConsecutiveDays capCtx.pattern
          capCtx.emps.length capAfterDay1 1 shiftW) =
      capCtx.emps.filter
        (amendedC3Candidate capCtx.shifts capCtx.maxConsecutiveDays capCtx.pattern
          capCtx.emps.length capAfterDay1 1 shiftW) :=
  c3_amended capCtx.shifts capCtx.maxConsecutiveDays capCtx.pattern
    capCtx.emps.length capAfterDay1 1 shiftW capCtx.emps (by decide)

/-- C3, counterexample: in the `capState` run, entering day 1 Ann has
worked exactly `maxConsecutiveDays = 1` consecutive days — she has not
*exceeded* the cap, so by the claim's wording she would be a candidate —
yet the engine's candidate set is empty while the claim's set contains
her. -/
theorem c3_counterexample :
    capAfterDay1.consecutive 0 = 1 ∧
    capState.constraints.maxConsecutiveDays = 1 ∧
    capCtx.emps.filter
      (isAvailable capCtx.shifts capCtx.maxConsecutiveDays capCtx.pattern
        capCtx.emps.length capAfterDay1 1 shiftW) = [] ∧
    capCtx.emps.filter
      (claimC3Candidate capCtx.shifts capCtx.maxConsecutiveDays capCtx.pattern
        capCtx.emps.length capAfterDay1 1 shiftW) = [annFlat] := by
  decide

/-- The grid after one per-shift step: the shift code written over the
first `requiredCount` cells of the noisily sorted candidate list. -/
theorem processShift_schedule (rng : Q → Q) (ctx : Ctx) (d : Nat)
    (isWknd : Bool) (st : SchedState) (shift : Shift) :
    (processShift rng ctx d isWknd st shift).schedule =
      (((sortNoisy rng (shift.code == "N") st.total st.night
          (ctx.emps.filter
            (isAvailable ctx.shifts ctx.maxConsecutiveDays ctx.pattern
              ctx.emps.length st d shift))
          st.seed).1.take (requiredCountFor ctx isWknd shift)).foldl
        (fun sch e => setCell sch e.idx d (some shift.code)) st.schedule) := by
  simp only [processShift, requiredCountFor]
  split <;> split <;> rw [assignLoop_schedule, Nat.sub_zero]

/-! ## C4: scoring and assignment order -/

/-- C4, counterexample: with two candidates the engine's sort makes one
comparator call, drawing **one** noise value per candidate (two draws in
total, Ben's first), and assigns Ben; the claim's score-once-per-candidate
reading (two successive draws per candidate, four in total) would rank Ann
first and assign Ann.  The grids differ. -/
theorem c4_counterexample :
    (processShift rngC4 pairCtx 0 false pairInit shiftW).schedule 0 0 = none ∧
    (processShift rngC4 pairCtx 0 false pairInit shiftW).schedule 1 0 = some "W" ∧
    (claimC4ProcessShift rngC4 pairCtx 0 false pairInit shiftW).schedule 0 0 = some "W" ∧
    (claimC4ProcessShift rngC4 pairCtx 0 false pairInit shiftW).schedule 1 0 = none := by
  decide

/-- C4 (amended): the comparator is impure — every comparator call during
the sort recomputes both scores from the current counters, with one fresh
noise draw per compared candidate (`totalAssigned + (2 * nightAssigned if
night shift) + draw * 0.5`), advancing the seed by two per call; the
resulting order is a permutation of the candidate set, and the shift is
assigned by writing its code into the cells of the first `requiredCount`
candidates of that order (fewer when candidates are exhausted). -/
theorem c4_amended (rng : Q → Q) (ctx : Ctx) (d : Nat) (isWknd : Bool)
    (st : SchedState) (shift : Shift) :
    (processShift rng ctx d isWknd st shift).schedule =
      (((sortNoisy rng (shift.code == "N") st.total st.night
          (ctx.emps.filter
            (isAvailable ctx.shifts ctx.maxConsecutiveDays ctx.pattern
              ctx.emps.length st d shift))
          st.seed).1.take (requiredCountFor ctx isWknd shift)).foldl
        (fun sch e => setCell sch e.idx d (some shift.code)) st.schedule) ∧
    (sortNoisy rng (shift.code == "N") st.total st.night
        (ctx.emps.filter
          (isAvailable ctx.shifts ctx.maxConsecutiveDays ctx.pattern
            ctx.emps.length st d shift))
        st.seed).1.Perm
      (ctx.emps.filter
        (isAvailable ctx.shifts ctx.maxConsecutiveDays ctx.pattern
          ctx.emps.length st d shift)) := by
  exact ⟨processShift_schedule rng ctx d isWknd st shift, sortNoisy_perm _ _ _ _ _ _⟩

/-! ## C1: absence markers survive the whole run -/

theorem foldl_preserve {α β : Type _} (P : β → Prop) (f : β → α → β) :
    ∀ (l : List α) (b : β), P b → (∀ b' x, x ∈ l → P b' → P (f b' x)) →
      P (l.foldl f b) := by
  intro l
  induction l with
  | nil => intro b h _; exact h
  | cons x xs ih =>
    intro b h hstep
    exact ih _ (hstep b x (List.mem_cons_self _ _) h)
      (fun b' y hy => hstep b' y (List.mem_cons_of_mem _ hy))

theorem setCell_ne (sch : Nat → Nat → Cell) (i d : Nat) (v : Cell)
    (i' d' : Nat) (h : ¬(i' = i ∧ d' = d)) :
    setCell sch i d v i' d' = sch i' d' := by
  by_cases hi : i' = i
  · by_cases hd : d' = d
    · exact absurd ⟨hi, hd⟩ h
    · simp [setCell, hi, hd]
  · simp [setCell, hi]

theorem foldl_setCell_other (code : String) (d : Nat) :
    ∀ (L : List FlatEmp) (sch : Nat → Nat → Cell) (i d' : Nat),
    (∀ e ∈ L, ¬(i = e.idx ∧ d' = d)) →
    (L.foldl (fun sch e => setCell sch e.idx d (some code)) sch) i d' = sch i d' := by
  intro L
  induction L with
  | nil => intro sch i d' _; rfl
  | cons e rest ih =>
    intro sch i d' h
    rw [List.foldl_cons, ih _ _ _ (fun x hx => h x (List.mem_cons_of_mem _ hx)),
      setCell_ne _ _ _ _ _ _ (h e (List.mem_cons_self _ _))]

/-- Members of the candidate list have a `null` cell on the day. -/
theorem mem_available_cell_none (ctx : Ctx) (st : SchedState) (d : Nat)
    (shift : Shift) (e : FlatEmp)
    (he : e ∈ ctx.emps.filter
      (isAvailable ctx.shifts ctx.maxConsecutiveDays ctx.pattern
        ctx.emps.length st d shift)) :
    st.schedule e.idx d = none := by
  have h := (List.mem_filter.mp he).2
  unfold isAvailable at h
  simp only [Bool.and_eq_true, beq_iff_eq] at h
  exact h.1.1.1

theorem processShift_preserves_some (rng : Q → Q) (ctx : Ctx) (d : Nat)
    (isWknd : Bool) (shift : Shift) (st : SchedState) (i d' : Nat) (v : String)
    (h : st.schedule i d' = some v) :
    (processShift rng ctx d isWknd st shift).schedule i d' = some v := by
  rw [processShift_schedule]
  rw [foldl_setCell_other]
  · exact h
  · intro e he hcontra
    have hmem : e ∈ ctx.emps.filter
        (isAvailable ctx.shifts ctx.maxConsecutiveDays ctx.pattern
          ctx.emps.length st d shift) := by
      have htake := List.mem_of_mem_take he
      exact (sortNoisy_perm _ _ _ _ _ _).mem_iff.mp htake
    have hnone := mem_available_cell_none ctx st d shift e hmem
    rw [hcontra.1, hcontra.2, hnone] at h
    exact Option.noConfusion h

theorem processDay_preserves_some (rng : Q → Q) (ctx : Ctx)
    (workingShifts : List Shift) (st : SchedState) (d : Nat) (i d' : Nat)
    (v : String) (h : st.schedule i d' = some v) :
    (processDay rng ctx workingShifts st d).schedule i d' = some v := by
  unfold processDay updateConsecutive
  exact foldl_preserve (fun s => s.schedule i d' = some v) _ workingShifts st h
    (fun s sh _ hs => processShift_preserves_some rng ctx d _ sh s i d' v hs)

theorem stateAfterDays_preserves_some (rng : Q → Q) (ctx : Ctx)
    (workingShifts : List Shift) (st : SchedState) (k : Nat) (i d' : Nat)
    (v : String) (h : st.schedule i d' = some v) :
    (stateAfterDays rng ctx workingShifts st k).schedule i d' = some v := by
  unfold stateAfterDays
  exact foldl_preserve (fun s => s.schedule i d' = some v) _ _ st h
    (fun s d _ hs => processDay_preserves_some rng ctx workingShifts s d i d' v hs)

theorem backupPass_preserves_some (rng : Q → Q) (ctx : Ctx) (st : SchedState)
    (i d' : Nat) (v : String) (h : st.schedule i d' = some v) :
    (backupPass rng ctx st).schedule i d' = some v := by
  unfold backupPass
  cases hfind : ctx.shifts.find? (fun sh => sh.stype == "backup") with
  | none => exact h
  | some b =>
    refine foldl_preserve (fun s => s.schedule i d' = some v) _ _ st h ?_
    intro s day _ hs
    refine foldl_preserve (fun s => s.schedule i d' = some v) _ _ s hs ?_
    intro s' e _ hs'
    dsimp only
    split
    · rename_i hcond
      split
      · simp only [Bool.and_eq_true, beq_iff_eq] at hcond
        show setCell s'.schedule e.idx day (some b.code) i d' = some v
        rw [setCell_ne]
        · exact hs'
        · intro hc
          rw [hc.1, hc.2, hcond.1.1] at hs'
          exact Option.noConfusion hs'
      · exact hs'
    · exact hs'

theorem adminPass_preserves_some (rng : Q → Q) (ctx : Ctx) (st : SchedState)
    (i d' : Nat) (v : String) (h : st.schedule i d' = some v) :
    (adminPass rng ctx st).schedule i d' = some v := by
  unfold adminPass
  cases hfind : ctx.shifts.find? (fun sh => sh.stype == "admin") with
  | none => exact h
  | some b =>
    refine foldl_preserve (fun s => s.schedule i d' = some v) _ _ st h ?_
    intro s day _ hs
    refine foldl_preserve (fun s => s.schedule i d' = some v) _ _ s hs ?_
    intro s' e _ hs'
    dsimp only
    split
    · rename_i hcond
      split
      · simp only [Bool.and_eq_true, beq_iff_eq] at hcond
        show setCell s'.schedule e.idx day (some b.code) i d' = some v
        rw [setCell_ne]
        · exact hs'
        · intro hc
          rw [hc.1, hc.2, hcond.1] at hs'
          exact Option.noConfusion hs'
      · exact hs'
    · exact hs'

theorem auditPass_schedule (ctx : Ctx) (st : SchedState) :
    (auditPass ctx st).schedule = st.schedule := by
  unfold auditPass
  refine foldl_preserve (fun s => s.schedule = st.schedule) _ _ st rfl ?_
  intro s e _ hs
  dsimp only
  split
  · exact hs
  · exact hs

/-- C1: a cell pre-set to an absence marker (`LEAVE` or `TAD`) by the
unavailability pre-fill still holds exactly that marker after the complete
three-pass run (working shifts, backup fill, admin fill) and the audit; no
working, backup or admin code is ever written over it. -/
theorem c1_absence_preserved (rng : Q → Q) (dateStr : Nat → String)
    (isWeekend : Nat → Bool) (s : AppState) (i d : Nat) (m : String)
    (_hm : m = "LEAVE" ∨ m = "TAD")
    (hpre : prefillSchedule dateStr (getDaysInPeriod s)
      (flattenEmployees s.groups) i d = some m) :
    (runSchedulerCore rng dateStr isWeekend s).schedule i d = some m := by
  simp only [runSchedulerCore]
  rw [auditPass_schedule]
  apply adminPass_preserves_some
  apply backupPass_preserves_some
  apply stateAfterDays_preserves_some
  exact hpre

/-- C1 witness: Ann's two-day `LEAVE` window survives the full run on
day 0. -/
theorem c1_absence_preserved_witness :
    (runSchedulerCore rngZero mayDateStr noWeekend leaveState).schedule 0 0 =
      some "LEAVE" :=
  c1_absence_preserved rngZero mayDateStr noWeekend leaveState 0 0 "LEAVE"
    (Or.inl rfl) (by decide)

/-! ## C7: the consecutive-day audit -/

theorem maxRunLoop_zero (p : Nat → Bool) : maxRunLoop p 0 = (0, 0) := rfl

theorem maxRunLoop_succ (p : Nat → Bool) (n : Nat) :
    maxRunLoop p (n + 1) =
      (if p n then
        ((maxRunLoop p n).1 + 1, max (maxRunLoop p n).2 ((maxRunLoop p n).1 + 1))
      else (0, (maxRunLoop p n).2)) := by
  unfold maxRunLoop
  rw [List.range_succ, List.foldl_append, List.foldl_cons, List.foldl_nil]

/-- Full characterization of the audit fold: the first component is the
length of the maximal run ending at the boundary, the second is the length
of the longest run so far — it is attained, and no run is longer. -/
theorem maxRunLoop_spec (p : Nat → Bool) : ∀ n : Nat,
    (maxRunLoop p n).1 ≤ n ∧
    (∀ j, n - (maxRunLoop p n).1 ≤ j → j < n → p j = true) ∧
    ((maxRunLoop p n).1 < n → p (n - (maxRunLoop p n).1 - 1) = false) ∧
    hasRunOfLen p n (maxRunLoop p n).2 ∧
    (∀ k, hasRunOfLen p n k → k ≤ (maxRunLoop p n).2) := by
  intro n
  induction n with
  | zero =>
    refine ⟨Nat.le_refl 0, ?_, ?_, ⟨0, Nat.le_refl 0, ?_⟩, ?_⟩
    · intro j h1 h2
      omega
    · intro h
      simp [maxRunLoop_zero] at h
    · intro j hj
      simp [maxRunLoop_zero] at hj
    · rintro k ⟨a, ha, _⟩
      rw [maxRunLoop_zero]
      omega
  | succ n ih =>
    obtain ⟨ihc, ihw, ihb, ihr, ihm⟩ := ih
    rw [maxRunLoop_succ]
    cases hp : p n with
    | true =>
      rw [if_pos rfl]
      refine ⟨by omega, ?_, ?_, ?_, ?_⟩
      · intro j h1 h2
        by_cases hj : j < n
        · exact ihw j (by omega) hj
        · have hje : j = n := by omega
          rw [hje]
          exact hp
      · intro hlt
        have he : n + 1 - ((maxRunLoop p n).1 + 1) - 1 =
            n - (maxRunLoop p n).1 - 1 := by omega
        rw [he]
        exact ihb (by omega)
      · by_cases hcm : (maxRunLoop p n).1 + 1 ≤ (maxRunLoop p n).2
        · rw [Nat.max_eq_left hcm]
          obtain ⟨a, ha, hall⟩ := ihr
          exact ⟨a, by omega, hall⟩
        · rw [Nat.max_eq_right (by omega)]
          refine ⟨n - (maxRunLoop p n).1, by omega, ?_⟩
          intro j hj
          by_cases hjc : j < (maxRunLoop p n).1
          · exact ihw _ (by omega) (by omega)
          · have hje : n - (maxRunLoop p n).1 + j = n := by omega
            rw [hje]
            exact hp
      · rintro k ⟨a, hak, hall⟩
        by_cases hk0 : k = 0
        · omega
        · by_cases hend : a + k ≤ n
          · have := ihm k ⟨a, hend, hall⟩
            omega
          · have hak1 : a + k = n + 1 := by omega
            by_contra hgt
            push_neg at hgt
            have hkc : (maxRunLoop p n).1 + 1 < k := by omega
            have hcn : (maxRunLoop p n).1 < n := by omega
            have hidx : n - (maxRunLoop p n).1 - 1 - a < k := by omega
            have ha_le : a ≤ n - (maxRunLoop p n).1 - 1 := by omega
            have hrun := hall (n - (maxRunLoop p n).1 - 1 - a) hidx
            have he : a + (n - (maxRunLoop p n).1 - 1 - a) =
                n - (maxRunLoop p n).1 - 1 := by omega
            rw [he] at hrun
            rw [ihb hcn] at hrun
            exact Bool.noConfusion hrun
    | false =>
      rw [if_neg (by decide)]
      refine ⟨by omega, ?_, ?_, ?_, ?_⟩
      · intro j h1 h2
        omega
      · intro _
        have he : n + 1 - 0 - 1 = n := by omega
        rw [he]
        exact hp
      · obtain ⟨a, ha, hall⟩ := ihr
        exact ⟨a, by omega, hall⟩
      · rintro k ⟨a, hak, hall⟩
        by_cases hk0 : k = 0
        · omega
        · by_cases hend : a + k ≤ n
          · exact ihm k ⟨a, hend, hall⟩
          · have hak1 : a + k = n + 1 := by omega
            have hrun := hall (k - 1) (by omega)
            have he : a + (k - 1) = n := by omega
            rw [he, hp] at hrun
            exact Bool.noConfusion hrun

/-- The audit fold over an arbitrary employee list: the schedule is
untouched and each employee appends at most one overrun warning, computed
from the (unchanged) grid. -/
theorem auditFold_warnings (ctx : Ctx) :
    ∀ (emps : List FlatEmp) (st : SchedState),
    (emps.foldl
      (fun st e =>
        let maxConsec :=
          (maxRunLoop (fun d => countsForConsecutive (st.schedule e.idx d)) ctx.numDays).2
        if ctx.maxConsecutiveDays < maxConsec then
          { st with
            warnings := st.warnings ++ [overrunMsg e.name maxConsec ctx.maxConsecutiveDays] }
        else st) st).warnings =
      st.warnings ++
        emps.filterMap
          (fun e =>
            let m :=
              (maxRunLoop (fun d => countsForConsecutive (st.schedule e.idx d)) ctx.numDays).2
            if ctx.maxConsecutiveDays < m then
              some (overrunMsg e.name m ctx.maxConsecutiveDays)
            else none) := by
  intro emps
  induction emps with
  | nil => intro st; simp
  | cons e rest ih =>
    intro st
    rw [List.foldl_cons]
    dsimp only
    split
    · rename_i hcond
      rw [ih]
      simp [List.filterMap_cons, hcond]
    · rename_i hcond
      rw [ih]
      simp [List.filterMap_cons, hcond]

/-- C7 (amended): the audit never mutates the grid; for every employee it
appends (in roster order) exactly one warning if and only if the longest
run of consecutive days whose cell holds *any* truthy non-absence value —
working, backup or admin codes alike; `null`, `LEAVE` and `TAD` reset the
run — exceeds `maxConsecutiveDays`, and the warning reports that maximum
run length, which is attained by some window of consecutive days and
bounds every such window. -/
theorem c7_amended (ctx : Ctx) (st : SchedState) :
    (auditPass ctx st).schedule = st.schedule ∧
    (auditPass ctx st).warnings =
      st.warnings ++
        ctx.emps.filterMap
          (fun e =>
            let m :=
              (maxRunLoop (fun d => countsForConsecutive (st.schedule e.idx d)) ctx.numDays).2
            if ctx.maxConsecutiveDays < m then
              some (overrunMsg e.name m ctx.maxConsecutiveDays)
            else none) ∧
    (∀ i,
      hasRunOfLen (fun d => countsForConsecutive (st.schedule i d)) ctx.numDays
        ((maxRunLoop (fun d => countsForConsecutive (st.schedule i d)) ctx.numDays).2) ∧
      ∀ k, hasRunOfLen (fun d => countsForConsecutive (st.schedule i d)) ctx.numDays k →
        k ≤ (maxRunLoop (fun d => countsForConsecutive (st.schedule i d)) ctx.numDays).2) :=
  ⟨auditPass_schedule ctx st, auditFold_warnings ctx ctx.emps st,
    fun i =>
      ⟨(maxRunLoop_spec (fun d => countsForConsecutive (st.schedule i d)) ctx.numDays).2.2.2.1,
       (maxRunLoop_spec (fun d => countsForConsecutive (st.schedule i d)) ctx.numDays).2.2.2.2⟩⟩

/-- C7, counterexample: in the `capBackupState` run the backup pass fills
day 1 with `B` after the working pass assigned `W` on day 0, so the audit
counts a run of 2 and warns — although the longest run of *working-category*
cells is only 1, not above the cap of 1; the claim's "if and only if" (and
its run-length report) fails on this run. -/
theorem c7_counterexample :
    ¬ claimC7Holds rngZero mayDateStr noWeekend capBackupState := by
  intro h
  have h1 := (h annFlat (by decide)).1
  have h2 := h1.mp ⟨2, by decide⟩
  exact absurd h2 (by decide)

/-! ## C10: fairness counters agree with the grid -/

theorem find?_code_unique (shifts : List Shift)
    (hu : shifts.Pairwise (fun a b => a.code ≠ b.code)) (sh : Shift)
    (hm : sh ∈ shifts) :
    shifts.find? (fun s' => s'.code == sh.code) = some sh := by
  induction shifts with
  | nil => cases hm
  | cons a rest ih =>
    rcases List.mem_cons.mp hm with rfl | hmem
    · simp [List.find?_cons]
    · have hne : a.code ≠ sh.code := (List.pairwise_cons.mp hu).1 sh hmem
      have hp : (a.code == sh.code) = false := by simp [hne]
      rw [List.find?_cons, hp]
      exact ih (List.pairwise_cons.mp hu).2 hmem

theorem setCell_cases (sch : Nat → Nat → Cell) (i0 d0 : Nat) (v : Cell) (i d : Nat) :
    setCell sch i0 d0 v i d = v ∨ setCell sch i0 d0 v i d = sch i d := by
  unfold setCell
  split
  · exact Or.inl rfl
  · exact Or.inr rfl

theorem setCell_self (sch : Nat → Nat → Cell) (i d : Nat) (v : Cell) :
    setCell sch i d v i d = v := by
  simp [setCell]

theorem setCell_row_other (sch : Nat → Nat → Cell) (i0 d0 : Nat) (v : Cell)
    (i : Nat) (hi : i ≠ i0) : setCell sch i0 d0 v i = sch i :=
  funext fun d => setCell_ne sch i0 d0 v i d (fun hc => hi hc.1)

theorem countCells_setCell_self (p : Cell → Bool) (hpnone : p none = false)
    (sch : Nat → Nat → Cell) (i0 d0 : Nat) (v : Cell) :
    ∀ numDays : Nat, d0 < numDays → sch i0 d0 = none →
    countCells p (setCell sch i0 d0 v i0) numDays =
      countCells p (sch i0) numDays + (if p v = true then 1 else 0) := by
  intro numDays
  induction numDays with
  | zero => intro hd; exact absurd hd (Nat.not_lt_zero _)
  | succ n ih =>
    intro hd hnone
    unfold countCells at ih ⊢
    rw [List.range_succ, List.countP_append, List.countP_append]
    by_cases hdn : d0 = n
    · subst hdn
      have hpre :
          (List.range d0).countP (fun d => p (setCell sch i0 d0 v i0 d)) =
            (List.range d0).countP (fun d => p (sch i0 d)) := by
        apply List.countP_congr
        intro d hdmem
        have hne : d ≠ d0 := by
          have := List.mem_range.mp hdmem
          omega
        rw [setCell_ne sch i0 d0 v i0 d (fun hc => hne hc.2)]
      rw [hpre]
      simp only [List.countP_cons, List.countP_nil, setCell_self, hnone, hpnone]
      simp
    · have hlast : setCell sch i0 d0 v i0 n = sch i0 n :=
        setCell_ne sch i0 d0 v i0 n (fun hc => hdn hc.2.symm)
      rw [ih (by omega) hnone]
      simp only [List.countP_cons, List.countP_nil, hlast]
      omega

theorem countersOk_setCell (shifts : List Shift) (numDays : Nat)
    (st : SchedState) (hok : countersOk shifts numDays st) (i0 d0 : Nat)
    (hd : d0 < numDays) (code : String) (hnone : st.schedule i0 d0 = none)
    (tb nb : Bool)
    (ht : isTotalCountedCell shifts (some code) = tb)
    (hn : isNightCountedCell shifts (some code) = nb) :
    countersOk shifts numDays
      { st with
        schedule := setCell st.schedule i0 d0 (some code),
        total := if tb then bumpAt st.total i0 else st.total,
        night := if nb then bumpAt st.night i0 else st.night } := by
  intro i
  obtain ⟨hT, hN⟩ := hok i
  dsimp only
  by_cases hi : i = i0
  · subst hi
    constructor
    · rw [countCells_setCell_self _ rfl _ _ _ _ numDays hd hnone, ht]
      cases tb <;> simp [bumpAt, hT]
    · rw [countCells_setCell_self _ rfl _ _ _ _ numDays hd hnone, hn]
      cases nb <;> simp [bumpAt, hN]
  · rw [setCell_row_other _ _ _ _ _ hi]
    constructor
    · cases tb <;> simp [bumpAt, hi, hT]
    · cases nb <;> simp [bumpAt, hi, hN]

theorem assignLoop_countersOk (shifts : List Shift) (numDays : Nat)
    (code : String) (d : Nat) (hd : d < numDays) (req : Nat)
    (ht : isTotalCountedCell shifts (some code) = true)
    (hn : isNightCountedCell shifts (some code) = (code == "N")) :
    ∀ (L : List FlatEmp) (a : Nat) (st : SchedState),
    countersOk shifts numDays st →
    (∀ e ∈ L, st.schedule e.idx d = none) →
    L.Pairwise (fun x y => x.idx ≠ y.idx) →
    countersOk shifts numDays (assignLoop code d req L a st).1 := by
  intro L
  induction L with
  | nil => intro a st hok _ _; exact hok
  | cons e rest ih =>
    intro a st hok hnull hpw
    simp only [assignLoop]
    split
    · apply ih
      · exact countersOk_setCell shifts numDays st hok e.idx d hd code
          (hnull e (List.mem_cons_self _ _)) true (code == "N") ht hn
      · intro e' he'
        have hne : e'.idx ≠ e.idx :=
          fun hc => ((List.pairwise_cons.mp hpw).1 e' he') hc.symm
        show setCell st.schedule e.idx d (some code) e'.idx d = none
        rw [setCell_ne _ _ _ _ _ _ (fun hc => hne hc.1)]
        exact hnull e' (List.mem_cons_of_mem _ he')
      · exact (List.pairwise_cons.mp hpw).2
    · exact hok

theorem processShift_countersOk (rng : Q → Q) (ctx : Ctx) (d : Nat)
    (isWknd : Bool) (shift : Shift) (st : SchedState)
    (hd : d < ctx.numDays)
    (hu : ctx.shifts.Pairwise (fun a b => a.code ≠ b.code))
    (hmem : shift ∈ ctx.shifts) (hty : shift.stype = "working")
    (hemp : ctx.emps.Pairwise (fun a b => a.idx ≠ b.idx))
    (hok : countersOk ctx.shifts ctx.numDays st) :
    countersOk ctx.shifts ctx.numDays (processShift rng ctx d isWknd st shift) := by
  have hfind := find?_code_unique ctx.shifts hu shift hmem
  have ht : isTotalCountedCell ctx.shifts (some shift.code) = true := by
    simp [isTotalCountedCell, hfind, hty]
  have hn : isNightCountedCell ctx.shifts (some shift.code) = (shift.code == "N") := by
    cases hNc : shift.code == "N" with
    | true =>
      have hce : shift.code = "N" := by simpa using hNc
      rw [hce] at hfind
      simp [isNightCountedCell, hNc, hfind, hty]
    | false => simp [isNightCountedCell, hNc]
  have hperm := sortNoisy_perm rng (shift.code == "N") st.total st.night
    (ctx.emps.filter
      (isAvailable ctx.shifts ctx.maxConsecutiveDays ctx.pattern
        ctx.emps.length st d shift)) st.seed
  have hassign : ∀ req : Nat,
      countersOk ctx.shifts ctx.numDays
        (assignLoop shift.code d req
          (sortNoisy rng (shift.code == "N") st.total st.night
            (ctx.emps.filter
              (isAvailable ctx.shifts ctx.maxConsecutiveDays ctx.pattern
                ctx.emps.length st d shift)) st.seed).1
          0
          { st with
            seed :=
              (sortNoisy rng (shift.code == "N") st.total st.night
                (ctx.emps.filter
                  (isAvailable ctx.shifts ctx.maxConsecutiveDays ctx.pattern
                    ctx.emps.length st d shift)) st.seed).2 }).1 := by
    intro req
    apply assignLoop_countersOk ctx.shifts ctx.numDays shift.code d hd req ht hn
    · exact hok
    · intro e he
      exact mem_available_cell_none ctx st d shift e (hperm.mem_iff.mp he)
    · exact (hperm.pairwise_iff (fun h => h.symm)).mpr
        (hemp.sublist (List.filter_sublist ctx.emps))
  simp only [processShift]
  split <;> split <;> exact hassign _

theorem processDay_countersOk (rng : Q → Q) (ctx : Ctx)
    (workingShifts : List Shift) (st : SchedState) (d : Nat)
    (hd : d < ctx.numDays)
    (hu : ctx.shifts.Pairwise (fun a b => a.code ≠ b.code))
    (hemp : ctx.emps.Pairwise (fun a b => a.idx ≠ b.idx))
    (hws : ∀ sh ∈ workingShifts, sh ∈ ctx.shifts ∧ sh.stype = "working")
    (hok : countersOk ctx.shifts ctx.numDays st) :
    countersOk ctx.shifts ctx.numDays (processDay rng ctx workingShifts st d) := by
  unfold processDay
  have hfold :=
    foldl_preserve (countersOk ctx.shifts ctx.numDays)
      (processShift rng ctx d (ctx.isWeekend d)) workingShifts st hok
      (fun s sh hsh hs =>
        processShift_countersOk rng ctx d (ctx.isWeekend d) sh s hd hu
          (hws sh hsh).1 (hws sh hsh).2 hemp hs)
  exact hfold

theorem stateAfterDays_countersOk (rng : Q → Q) (ctx : Ctx)
    (workingShifts : List Shift) (st : SchedState) (k : Nat)
    (hk : k ≤ ctx.numDays)
    (hu : ctx.shifts.Pairwise (fun a b => a.code ≠ b.code))
    (hemp : ctx.emps.Pairwise (fun a b => a.idx ≠ b.idx))
    (hws : ∀ sh ∈ workingShifts, sh ∈ ctx.shifts ∧ sh.stype = "working")
    (hok : countersOk ctx.shifts ctx.numDays st) :
    countersOk ctx.shifts ctx.numDays
      (stateAfterDays rng ctx workingShifts st k) := by
  unfold stateAfterDays
  refine foldl_preserve _ _ _ st hok ?_
  intro s d hdmem hs
  exact processDay_countersOk rng ctx workingShifts s d
    (by have := List.mem_range.mp hdmem; omega) hu hemp hws hs

theorem backupPass_countersOk (rng : Q → Q) (ctx : Ctx) (st : SchedState)
    (hu : ctx.shifts.Pairwise (fun a b => a.code ≠ b.code))
    (hok : countersOk ctx.shifts ctx.numDays st) :
    countersOk ctx.shifts ctx.numDays (backupPass rng ctx st) := by
  unfold backupPass
  cases hfind : ctx.shifts.find? (fun sh => sh.stype == "backup") with
  | none => exact hok
  | some b =>
    have hbmem : b ∈ ctx.shifts := List.mem_of_find?_eq_some hfind
    have hbty : b.stype = "backup" := by simpa using List.find?_some hfind
    have hfc := find?_code_unique ctx.shifts hu b hbmem
    have ht : isTotalCountedCell ctx.shifts (some b.code) = true := by
      simp [isTotalCountedCell, hfc, hbty]
    have hn : isNightCountedCell ctx.shifts (some b.code) = false := by
      cases hbn : b.code == "N" with
      | false => simp [isNightCountedCell, hbn]
      | true =>
        have hbe : b.code = "N" := by simpa using hbn
        rw [hbe] at hfc
        simp [isNightCountedCell, hbn, hfc, hbty]
    refine foldl_preserve _ _ _ st hok ?_
    intro s day hday hs
    refine foldl_preserve _ _ _ s hs ?_
    intro s' e _ hs'
    dsimp only
    split
    · rename_i hcond
      split
      · simp only [Bool.and_eq_true, beq_iff_eq] at hcond
        exact countersOk_setCell ctx.shifts ctx.numDays s' hs' e.idx day
          (List.mem_range.mp hday) b.code hcond.1.1 true false ht hn
      · exact hs'
    · exact hs'

theorem adminPass_countersOk (rng : Q → Q) (ctx : Ctx) (st : SchedState)
    (hu : ctx.shifts.Pairwise (fun a b => a.code ≠ b.code))
    (hok : countersOk ctx.shifts ctx.numDays st) :
    countersOk ctx.shifts ctx.numDays (adminPass rng ctx st) := by
  unfold adminPass
  cases hfind : ctx.shifts.find? (fun sh => sh.stype == "admin") with
  | none => exact hok
  | some b =>
    have hbmem : b ∈ ctx.shifts := List.mem_of_find?_eq_some hfind
    have hbty : b.stype = "admin" := by simpa using List.find?_some hfind
    have hfc := find?_code_unique ctx.shifts hu b hbmem
    have ht : isTotalCountedCell ctx.shifts (some b.code) = false := by
      simp [isTotalCountedCell, hfc, hbty]
    have hn : isNightCountedCell ctx.shifts (some b.code) = false := by
      cases hbn : b.code == "N" with
      | false => simp [isNightCountedCell, hbn]
      | true =>
        have hbe : b.code = "N" := by simpa using hbn
        rw [hbe] at hfc
        simp [isNightCountedCell, hbn, hfc, hbty]
    refine foldl_preserve _ _ _ st hok ?_
    intro s day hday hs
    refine foldl_preserve _ _ _ s hs ?_
    intro s' e _ hs'
    dsimp only
    split
    · rename_i hcond
      split
      · simp only [Bool.and_eq_true, beq_iff_eq] at hcond
        exact countersOk_setCell ctx.shifts ctx.numDays s' hs' e.idx day
          (List.mem_range.mp hday) b.code hcond.1 false false ht hn
      · exact hs'
    · exact hs'

theorem auditPass_total (ctx : Ctx) (st : SchedState) :
    (auditPass ctx st).total = st.total := by
  unfold auditPass
  refine foldl_preserve (fun s => s.total = st.total) _ _ st rfl ?_
  intro s e _ hs
  dsimp only
  split
  · exact hs
  · exact hs

theorem auditPass_night (ctx : Ctx) (st : SchedState) :
    (auditPass ctx st).night = st.night := by
  unfold auditPass
  refine foldl_preserve (fun s => s.night = st.night) _ _ st rfl ?_
  intro s e _ hs
  dsimp only
  split
  · exact hs
  · exact hs

/-- The pre-fill only produces empty cells and `LEAVE`/`TAD` markers. -/
theorem prefill_tri (dateStr : Nat → String) (numDays : Nat)
    (emps : List FlatEmp)
    (hwin : ∀ e ∈ emps, ∀ u ∈ e.unavailability,
      u.kind = "LEAVE" ∨ u.kind = "TAD") (i d : Nat) :
    prefillSchedule dateStr numDays emps i d = none ∨
      prefillSchedule dateStr numDays emps i d = some "LEAVE" ∨
      prefillSchedule dateStr numDays emps i d = some "TAD" := by
  unfold prefillSchedule
  refine foldl_preserve
    (fun sch => sch i d = none ∨ sch i d = some "LEAVE" ∨ sch i d = some "TAD")
    _ emps (fun _ _ => none) (Or.inl rfl) ?_
  intro sch e he hsch
  unfold prefillEmp
  refine foldl_preserve
    (fun sch => sch i d = none ∨ sch i d = some "LEAVE" ∨ sch i d = some "TAD")
    (applyWindow dateStr numDays e.idx) e.unavailability sch hsch ?_
  intro sch' u hu hsch'
  unfold applyWindow
  split
  · exact hsch'
  · refine foldl_preserve
      (fun sch => sch i d = none ∨ sch i d = some "LEAVE" ∨ sch i d = some "TAD")
      _ (List.range numDays) sch' hsch' ?_
    intro sch'' dd _ hsch''
    dsimp only
    split <;> split
    all_goals first
      | exact hsch''
      | (rcases setCell_cases sch'' e.idx dd (some u.kind) i d with hc | hc
         · rw [hc]
           rcases hwin e he u hu with hk | hk
           · exact Or.inr (Or.inl (by rw [hk]))
           · exact Or.inr (Or.inr (by rw [hk]))
         · rw [hc]
           exact hsch'')

theorem countersOk_init (ctx : Ctx) (seed : Q)
    (hres : ∀ sh ∈ ctx.shifts, sh.code ≠ "LEAVE" ∧ sh.code ≠ "TAD")
    (hwin : ∀ e ∈ ctx.emps, ∀ u ∈ e.unavailability,
      u.kind = "LEAVE" ∨ u.kind = "TAD") :
    countersOk ctx.shifts ctx.numDays (initState ctx seed) := by
  have hLt : ctx.shifts.find? (fun sh => sh.code == "LEAVE") = none :=
    List.find?_eq_none.mpr (fun sh hsh => by simp [(hres sh hsh).1])
  have hTd : ctx.shifts.find? (fun sh => sh.code == "TAD") = none :=
    List.find?_eq_none.mpr (fun sh hsh => by simp [(hres sh hsh).2])
  intro i
  constructor
  · show (0 : Nat) = countCells _ _ _
    symm
    unfold countCells
    rw [List.countP_eq_zero]
    intro d _
    rcases prefill_tri ctx.dateStr ctx.numDays ctx.emps hwin i d with hc | hc | hc <;>
      simp [initState, hc, isTotalCountedCell, hLt, hTd]
  · show (0 : Nat) = countCells _ _ _
    symm
    unfold countCells
    rw [List.countP_eq_zero]
    intro d _
    rcases prefill_tri ctx.dateStr ctx.numDays ctx.emps hwin i d with hc | hc | hc <;>
      simp [initState, hc, isNightCountedCell]

theorem reindexFrom_idx_ge : ∀ (l : List FlatEmp) (i : Nat) (e : FlatEmp),
    e ∈ reindexFrom i l → i ≤ e.idx := by
  intro l
  induction l with
  | nil => intro i e he; cases he
  | cons x xs ih =>
    intro i e he
    rcases List.mem_cons.mp he with rfl | hmem
    · exact Nat.le_refl _
    · exact Nat.le_of_succ_le (ih (i + 1) e hmem)

theorem reindexFrom_pairwise : ∀ (l : List FlatEmp) (i : Nat),
    (reindexFrom i l).Pairwise (fun a b => a.idx ≠ b.idx) := by
  intro l
  induction l with
  | nil => intro i; exact List.Pairwise.nil
  | cons x xs ih =>
    intro i
    refine List.pairwise_cons.mpr ⟨?_, ih (i + 1)⟩
    intro b hb
    have := reindexFrom_idx_ge xs (i + 1) b hb
    show i ≠ b.idx
    omega

theorem flattenEmployees_pairwise (groups : List Group) :
    (flattenEmployees groups).Pairwise (fun a b => a.idx ≠ b.idx) :=
  reindexFrom_pairwise _ 0

theorem insertStable_perm (key : α → Nat) (x : α) :
    ∀ l : List α, (insertStable key x l).Perm (x :: l) := by
  intro l
  induction l with
  | nil => exact List.Perm.refl _
  | cons y ys ih =>
    simp only [insertStable]
    split
    · exact ((ih).cons y).trans (List.Perm.swap x y ys)
    · exact List.Perm.refl _

theorem stableSortBy_aux_perm (key : α → Nat) :
    ∀ (l : List α) (acc : List α),
    (l.foldl (fun acc x => insertStable key x acc) acc).Perm (acc ++ l) := by
  intro l
  induction l with
  | nil => intro acc; simp
  | cons x xs ih =>
    intro acc
    rw [List.foldl_cons]
    refine (ih _).trans ?_
    refine (List.Perm.append_right xs (insertStable_perm key x acc)).trans ?_
    exact List.perm_middle.symm

theorem stableSortBy_perm (key : α → Nat) (l : List α) :
    (stableSortBy key l).Perm l := by
  unfold stableSortBy
  simpa using stableSortBy_aux_perm key l []

/-- C10: after a complete run, with catalog codes pairwise distinct, no
code equal to a reserved absence marker, and every unavailability window
kinded `LEAVE`/`TAD`, every employee's `total` counter equals the number of
period days whose cell holds a working- or backup-category shift code, and
the `night` counter the number of days whose cell holds the working shift
code `N`; admin assignments and absence markers count toward neither. -/
theorem c10_counters (rng : Q → Q) (dateStr : Nat → String)
    (isWeekend : Nat → Bool) (s : AppState)
    (hu : s.shifts.Pairwise (fun a b => a.code ≠ b.code))
    (hres : ∀ sh ∈ s.shifts, sh.code ≠ "LEAVE" ∧ sh.code ≠ "TAD")
    (hwin : ∀ e ∈ flattenEmployees s.groups, ∀ u ∈ e.unavailability,
      u.kind = "LEAVE" ∨ u.kind = "TAD") :
    ∀ i : Nat,
      (runSchedulerCore rng dateStr isWeekend s).total i =
        countCells (isTotalCountedCell s.shifts)
          ((runSchedulerCore rng dateStr isWeekend s).schedule i)
          (getDaysInPeriod s) ∧
      (runSchedulerCore rng dateStr isWeekend s).night i =
        countCells (isNightCountedCell s.shifts)
          ((runSchedulerCore rng dateStr isWeekend s).schedule i)
          (getDaysInPeriod s) := by
  have hemp : (mkCtx dateStr isWeekend s).emps.Pairwise (fun a b => a.idx ≠ b.idx) :=
    flattenEmployees_pairwise s.groups
  have hws : ∀ sh ∈ stableSortBy (fun sh => shiftPriority sh.code)
      ((mkCtx dateStr isWeekend s).shifts.filter (fun sh => sh.stype == "working")),
      sh ∈ (mkCtx dateStr isWeekend s).shifts ∧ sh.stype = "working" := by
    intro sh hsh
    have hmem := (stableSortBy_perm _ _).mem_iff.mp hsh
    have h1 := List.mem_filter.mp hmem
    exact ⟨h1.1, by simpa using h1.2⟩
  have h0 : countersOk (mkCtx dateStr isWeekend s).shifts
      (mkCtx dateStr isWeekend s).numDays
      (initState (mkCtx dateStr isWeekend s) s.randomSeed) :=
    countersOk_init _ _ hres hwin
  have h1 := stateAfterDays_countersOk rng (mkCtx dateStr isWeekend s) _ _
    (mkCtx dateStr isWeekend s).numDays (Nat.le_refl _) hu hemp hws h0
  have h2 := backupPass_countersOk rng (mkCtx dateStr isWeekend s) _ hu h1
  have h3 := adminPass_countersOk rng (mkCtx dateStr isWeekend s) _ hu h2
  intro i
  obtain ⟨hT, hN⟩ := h3 i
  simp only [runSchedulerCore]
  constructor
  · rw [auditPass_total, auditPass_schedule]
    exact hT
  · rw [auditPass_night, auditPass_schedule]
    exact hN

/-- C10 witness: the counter equations evaluated on the `capBackupState`
run for the single employee (total 2: one working day, one backup day;
nights 0). -/
theorem c10_counters_witness :
    (runSchedulerCore rngZero mayDateStr noWeekend capBackupState).total 0 =
      countCells (isTotalCountedCell capBackupState.shifts)
        ((runSchedulerCore rngZero mayDateStr noWeekend capBackupState).schedule 0)
        (getDaysInPeriod capBackupState) ∧
    (runSchedulerCore rngZero mayDateStr noWeekend capBackupState).night 0 =
      countCells (isNightCountedCell capBackupState.shifts)
        ((runSchedulerCore rngZero mayDateStr noWeekend capBackupState).schedule 0)
        (getDaysInPeriod capBackupState) :=
  c10_counters rngZero mayDateStr noWeekend capBackupState (by decide)
    (by decide) (by decide) 0

end StaffScheduler
